import Mathlib

/-
  Formal model of the `tooldiscovery` Go repository
  (github.com/jonwraymond/tooldiscovery).

  This development is a shallow embedding of the parts of the code that the
  verified properties concern: the index data model (`index.Summary`,
  `index.SearchDoc`), the semantic adapter (`semantic/adapter.go`), the
  composite searchers (`discovery/composite.go`), the BM25 fingerprint
  (`search/fingerprint.go`), the provider registry (`provider/provider.go`),
  the discovery facade (`discovery/discovery.go`), the MCP registry
  (`registry/registry.go`, `registry/mcp.go`) and the tooldoc argument caps
  (`tooldoc` package).

  Modelling conventions:
  * Go `float64` scores, weights and vector entries are modelled as exact
    rationals (`ℚ`); the properties proved here concern comparisons and
    linear combinations, not rounding.
  * Go byte strings are modelled as Lean `String` / `List Char`;
    byte-indexed truncation (`s[:120]`) is modelled as character-indexed
    truncation (they coincide on ASCII data).
  * Go `nil` and empty slices are both modelled as `[]`.
  * A `context.Context` parameter carries only cancellation, which is a
    scheduling concern; it is dropped from the model.  Fallible Go functions
    return `Except Err α`.
  * Go maps iterate in an unspecified order; where the code iterates over a
    map the model takes the iteration order as given by an association list,
    so every proved statement holds for every iteration order.
-/

/-- Error kinds used across the modelled packages (each corresponds to a
sentinel `errors.New` value or wrapped error in the source). -/
inductive Err where
  | notFound
  | invalidTool
  | invalidBackend
  | invalidEmbedder
  | invalidHybridConfig
  | argsTooLarge
  | invalidProvider
  | invalidProviderID
  | alreadyStarted
  | executionFailed (msg : String)
  | connectFailed (backend : String)
  | registerFailed (backend : String)
  deriving DecidableEq, Repr

deriving instance DecidableEq for Except

namespace index

/-- Modelled from the spec: `index.Summary` (the `index` package source is
not part of this snapshot; the field set is fixed by §3 of the spec and by
the uses in `search/fingerprint.go` and `semantic/adapter.go`).  Lightweight
discovery payload; never carries schemas. -/
structure Summary where
  ID : String := ""
  Name : String := ""
  Namespace : String := ""
  ShortDescription : String := ""
  Summary : String := ""
  Category : String := ""
  InputModes : List String := []
  OutputModes : List String := []
  SecuritySummary : String := ""
  Tags : List String := []
  deriving DecidableEq, Repr

/-- Modelled from the spec: `index.SearchDoc` — the scoring payload
`{ id, docText, summary }`. -/
structure SearchDoc where
  ID : String := ""
  DocText : String := ""
  Summary : Summary := {}
  deriving DecidableEq, Repr

instance : Inhabited SearchDoc := ⟨{}⟩

/-- `index.MaxShortDescriptionLen` (120), referenced by
`semantic/adapter.go`. -/
def MaxShortDescriptionLen : Nat := 120

end index

namespace semantic

/-- Modelled from the spec: `semantic.Document` (the `semantic` package
implementation is not part of this snapshot; the field set is fixed by the
package documentation and `semantic/adapter_test.go`). -/
structure Document where
  ID : String := ""
  Name : String := ""
  Namespace : String := ""
  Description : String := ""
  Tags : List String := []
  Category : String := ""
  Text : String := ""
  deriving DecidableEq, Repr

/-- Join the nonempty strings of `l` with single spaces. -/
def joinNonempty (l : List String) : String :=
  String.intercalate " " (l.filter (fun s => s ≠ ""))

/-- ASCII lowercasing of one character (`strings.ToLower` on the ASCII
range, which is what the scorer's case-insensitivity concerns). -/
def lowerChar (c : Char) : Char :=
  if 'A' ≤ c ∧ c ≤ 'Z' then Char.ofNat (c.toNat + 32) else c

/-- Lowercase a string character by character. -/
def toLowerStr (s : String) : String := String.mk (s.data.map lowerChar)

/-- Modelled from the spec: `Document.Normalized` (semantic package, not in
this snapshot).  Per the package documentation it "lowercases tags, sorts
them, and builds the combined Text field"; per
`TestSearchDocFromDocument/rebuilds text when empty` the built text joins
name, namespace, description and the tags with spaces, and a nonempty
`Text` is kept as is. -/
def Document.Normalized (d : Document) : Document :=
  let tags := List.insertionSort (fun a b => a ≤ b) (d.Tags.map toLowerStr)
  { d with
    Tags := tags
    Text :=
      if d.Text ≠ "" then d.Text
      else joinNonempty ([d.Name, d.Namespace, d.Description] ++ tags) }

/-- `DocumentFromSearchDoc` (semantic/adapter.go): convert an
`index.SearchDoc` to a `semantic.Document`.  `Category` is set empty (not
present in `SearchDoc`); tags are copied. -/
def DocumentFromSearchDoc (doc : index.SearchDoc) : Document :=
  { ID := doc.ID
    Name := doc.Summary.Name
    Namespace := doc.Summary.Namespace
    Description := doc.Summary.ShortDescription
    Tags := doc.Summary.Tags
    Category := ""
    Text := doc.DocText }

/-- `DocumentsFromSearchDocs` (semantic/adapter.go).  The Go function
returns `nil` for empty input; `nil` and the empty slice coincide in the
model. -/
def DocumentsFromSearchDocs (docs : List index.SearchDoc) : List Document :=
  docs.map DocumentFromSearchDoc

/-- `buildDocText` (semantic/adapter.go): lowercased search text rebuilt
from document fields via `Document.Normalized`. -/
def buildDocText (doc : Document) : String :=
  (doc.Normalized).Text

/-- `SearchDocFromDocument` (semantic/adapter.go): convert a
`semantic.Document` back to an `index.SearchDoc`.  The description is
truncated to `index.MaxShortDescriptionLen`; an empty `Text` is rebuilt
through `buildDocText`. -/
def SearchDocFromDocument (doc : Document) : index.SearchDoc :=
  let shortDesc :=
    if doc.Description.length > index.MaxShortDescriptionLen then
      (doc.Description.toList.take index.MaxShortDescriptionLen).asString
    else doc.Description
  let docText := if doc.Text = "" then buildDocText doc else doc.Text
  { ID := doc.ID
    DocText := docText
    Summary :=
      { ID := doc.ID
        Name := doc.Name
        Namespace := doc.Namespace
        ShortDescription := shortDesc
        Tags := doc.Tags } }

end semantic

namespace semantic

/-- `semantic.Strategy`: scores a document against a query.  The Go
interface is `Score(ctx, query, doc) (float64, error)`; the model drops the
cancellation context and uses exact rationals. -/
def Strategy : Type := String → Document → Except Err ℚ

/-- `semantic.BM25Scorer`: `Score(query, doc) float64` (infallible). -/
def BM25Scorer : Type := String → Document → ℚ

/-- `semantic.Embedder`: `Embed(ctx, text) ([]float32, error)`. -/
def Embedder : Type := String → Except Err (List ℚ)

/-- Split a character stream into whitespace-separated words (`cur` is the
word currently being read). -/
def fieldsAux : List Char → List Char → List String
  | [], cur => if cur = [] then [] else [String.mk cur]
  | c :: rest, cur =>
      if c = ' ' then
        if cur = [] then fieldsAux rest []
        else String.mk cur :: fieldsAux rest []
      else fieldsAux rest (cur ++ [c])

/-- Whitespace tokenization, lowercased (used by the default BM25 scorer). -/
def tokens (s : String) : List String :=
  fieldsAux (toLowerStr s).data []

/-- Modelled from the spec: the default lexical scorer installed by
`NewBM25Strategy(nil)` (semantic package, not in this snapshot).  Per the
package documentation it is "token overlap scoring"; per its tests the
score is the number of query tokens that occur among the document's tokens,
case-insensitively (`"hello world"` on `"hello world hello"` scores 2, an
empty query scores 0). -/
def defaultBM25Score (query : String) (doc : Document) : ℚ :=
  ((tokens query).filter (fun t => t ∈ tokens doc.Text)).length

/-- Modelled from the spec: `NewBM25Strategy` (semantic package, not in
this snapshot).  A `nil` scorer selects the default token-overlap scorer;
the document is normalized before scoring (its tests score documents whose
`Text` is empty through `Normalized()`). -/
def NewBM25Strategy (scorer : Option BM25Scorer) : Strategy :=
  fun query doc =>
    let d := doc.Normalized
    match scorer with
    | some f => .ok (f query d)
    | none => .ok (defaultBM25Score query d)

/-- Modelled from the spec: the floating-point square root used by cosine
similarity, as an exact-on-perfect-squares rational approximation (every
concrete evaluation in this development takes it at a perfect square). -/
def ratSqrt (q : ℚ) : ℚ :=
  (Nat.sqrt q.num.toNat : ℚ) / (Nat.sqrt q.den : ℚ)

/-- Dot product of two rational vectors (pointwise, truncating). -/
def dotProduct (a b : List ℚ) : ℚ :=
  ((a.zip b).map (fun p => p.1 * p.2)).sum

/-- Sum of squares of a rational vector. -/
def sumSquares (a : List ℚ) : ℚ :=
  (a.map (fun x => x * x)).sum

/-- Modelled from the spec: `cosineSimilarity` (semantic package, not in
this snapshot).  Per the spec and its tests: unequal-length, empty, or
zero-norm vectors yield similarity 0 (never NaN, never panic); otherwise
`dot / (‖a‖·‖b‖)`. -/
def cosineSimilarity (a b : List ℚ) : ℚ :=
  if a.length ≠ b.length ∨ a.isEmpty ∨ b.isEmpty then 0
  else
    let dot := dotProduct a b
    let na := sumSquares a
    let nb := sumSquares b
    if na = 0 ∨ nb = 0 then 0
    else dot / (ratSqrt na * ratSqrt nb)

/-- Modelled from the spec: `NewEmbeddingStrategy` (semantic package, not
in this snapshot).  A `nil` embedder makes `Score` fail with
`ErrInvalidEmbedder`; otherwise the query and the normalized document text
are embedded and scored by cosine similarity. -/
def NewEmbeddingStrategy (embedder : Option Embedder) : Strategy :=
  fun query doc =>
    match embedder with
    | none => .error .invalidEmbedder
    | some embed => do
        let qv ← embed query
        let dv ← embed (doc.Normalized).Text
        .ok (cosineSimilarity qv dv)

end semantic

namespace discovery

/-- `discovery.ScoreType`: the source of a result's score
(discovery/types.go). -/
inductive ScoreType where
  | bm25
  | embedding
  | hybrid
  deriving DecidableEq, Repr

/-- `discovery.Result`: a search result with score details
(discovery/types.go). -/
structure Result where
  Summary : index.Summary
  Score : ℚ
  ScoreType : ScoreType
  deriving DecidableEq, Repr

/-- `discovery.HybridSearcher` (discovery/composite.go): combines a BM25
strategy and an embedding strategy with weight `alpha`. -/
structure HybridSearcher where
  bm25Strategy : semantic.Strategy
  embeddingStrategy : semantic.Strategy
  alpha : ℚ

/-- `discovery.HybridOptions` (discovery/composite.go). -/
structure HybridOptions where
  BM25Scorer : Option semantic.BM25Scorer := none
  Embedder : Option semantic.Embedder := none
  Alpha : ℚ := 0

/-- `NewHybridSearcher` (discovery/composite.go): fails with
`ErrInvalidEmbedder` when the embedder is nil and with
`ErrInvalidHybridConfig` when `alpha` is outside `[0,1]`. -/
def NewHybridSearcher (opts : HybridOptions) : Except Err HybridSearcher :=
  match opts.Embedder with
  | none => .error .invalidEmbedder
  | some _ =>
      if opts.Alpha < 0 ∨ opts.Alpha > 1 then .error .invalidHybridConfig
      else
        .ok { bm25Strategy := semantic.NewBM25Strategy opts.BM25Scorer
              embeddingStrategy := semantic.NewEmbeddingStrategy opts.Embedder
              alpha := opts.Alpha }

/-- `scoredDoc` (discovery/composite.go): a document index with its score. -/
structure scoredDoc where
  idx : Nat
  score : ℚ
  deriving DecidableEq, Repr

/-- The search doc at position `i` (`docs[i]` in Go; every index reaching a
lookup is in range). -/
def docAt (docs : List index.SearchDoc) (i : Nat) : index.SearchDoc :=
  (docs.get? i).getD {}

/-- The document id consulted by `sortScoredDocs` (`docs[scored[j].idx].ID`). -/
def docID (docs : List index.SearchDoc) (i : Nat) : String :=
  (docAt docs i).ID

/-- The swap condition of `sortScoredDocs`: entry `a` strictly precedes
entry `b` when its score is higher, or the scores tie and its document id
is smaller. -/
def beats (docs : List index.SearchDoc) (a b : scoredDoc) : Prop :=
  b.score < a.score ∨ (a.score = b.score ∧ docID docs a.idx < docID docs b.idx)

instance (docs : List index.SearchDoc) (a b : scoredDoc) :
    Decidable (beats docs a b) := by
  unfold beats; exact inferInstance

/-- The inner loop of `sortScoredDocs` (discovery/composite.go, lines
225-238) at outer position `i`: `cur` is the current `scored[i]`, the list
is `scored[i+1..]`.  Whenever a later entry beats the current one they are
swapped; the returned pair is the final `scored[i]` and the final contents
of the positions after `i`, in order. -/
def innerLoop (docs : List index.SearchDoc) :
    scoredDoc → List scoredDoc → scoredDoc × List scoredDoc
  | cur, [] => (cur, [])
  | cur, x :: rest =>
      if beats docs x cur then
        let p := innerLoop docs x rest
        (p.1, cur :: p.2)
      else
        let p := innerLoop docs cur rest
        (p.1, x :: p.2)

/-- The outer loop of `sortScoredDocs`: repeatedly bring the most preceding
entry to the front of the remaining segment.  The recursion is driven by
the explicit counter `n`, the number of outer iterations left; the loop is
always entered with `n = l.length` (the inner loop preserves the length of
the remaining segment, so the counter never runs out early). -/
def sortLoop (docs : List index.SearchDoc) :
    Nat → List scoredDoc → List scoredDoc
  | 0, _ => []
  | _ + 1, [] => []
  | n + 1, x :: xs =>
      (innerLoop docs x xs).1 :: sortLoop docs n (innerLoop docs x xs).2

/-- `sortScoredDocs` (discovery/composite.go): sort by score descending,
then by document id ascending.  The imperative double swap loop is rendered
by `innerLoop`/`sortLoop`, which perform the same element movements. -/
def sortScoredDocs (scored : List scoredDoc) (docs : List index.SearchDoc) :
    List scoredDoc :=
  sortLoop docs scored.length scored

/-- The loop body of `HybridSearcher.SearchWithScores` (lines 90-103):
normalize the document, score it with both strategies, combine with weight
`alpha`. -/
def hybridDocScore (h : HybridSearcher) (query : String)
    (doc : semantic.Document) : Except Err ℚ := do
  let normalized := doc.Normalized
  let bm25Score ← h.bm25Strategy query normalized
  let embScore ← h.embeddingStrategy query normalized
  .ok (h.alpha * bm25Score + (1 - h.alpha) * embScore)

/-- The shape shared by the scoring loops of both searchers (lines 87-108
and 174-185): score each document in order with `score`, and collect a
`scoredDoc` entry exactly for the documents whose score is positive; `i` is
the index of the first document of the list. -/
def collectScored (score : semantic.Document → Except Err ℚ) :
    Nat → List semantic.Document → Except Err (List scoredDoc)
  | _, [] => .ok []
  | i, doc :: rest => do
      let s ← score doc
      let tail ← collectScored score (i + 1) rest
      .ok (if s > 0 then ⟨i, s⟩ :: tail else tail)

/-- The scoring loop of `HybridSearcher.SearchWithScores` (lines 87-108). -/
def hybridCollect (h : HybridSearcher) (query : String) :
    Nat → List semantic.Document → Except Err (List scoredDoc) :=
  collectScored (hybridDocScore h query)

/-- Truncation of the sorted list to `limit` entries (lines 114-116). -/
def truncateScored (scored : List scoredDoc) (limit : Int) : List scoredDoc :=
  if scored.length > limit.toNat then scored.take limit.toNat else scored

/-- Build a `Result` from a scored entry (lines 118-125 / 193-200). -/
def mkResult (docs : List index.SearchDoc) (t : ScoreType) (s : scoredDoc) :
    Result :=
  { Summary := (docAt docs s.idx).Summary, Score := s.score, ScoreType := t }

/-- The ordering discipline required of every production searcher (§4.3 of
the spec): score descending, ties broken by document id ascending.  This is
the spec-side relation the searcher output is compared against. -/
def keyOrder (docs : List index.SearchDoc) (a b : scoredDoc) : Prop :=
  b.score < a.score ∨ (a.score = b.score ∧ docID docs a.idx ≤ docID docs b.idx)

/-- `HybridSearcher.SearchWithScores` (discovery/composite.go):
`limit ≤ 0` returns empty; otherwise score every document with both
strategies, keep positive hybrid scores, sort, truncate to `limit` and
project to results. -/
def HybridSearcher.SearchWithScores (h : HybridSearcher) (query : String)
    (limit : Int) (docs : List index.SearchDoc) : Except Err (List Result) :=
  if limit ≤ 0 then .ok []
  else do
    let semDocs := semantic.DocumentsFromSearchDocs docs
    let scored ← hybridCollect h query 0 semDocs
    let sorted := sortScoredDocs scored docs
    let truncated := truncateScored sorted limit
    .ok (truncated.map (mkResult docs .hybrid))

/-- `HybridSearcher.Search` (discovery/composite.go): the `index.Searcher`
entry point; projects the scored results to summaries. -/
def HybridSearcher.Search (h : HybridSearcher) (query : String) (limit : Int)
    (docs : List index.SearchDoc) : Except Err (List index.Summary) :=
  if limit ≤ 0 then .ok []
  else do
    let results ← h.SearchWithScores query limit docs
    .ok (results.map (·.Summary))

/-- `discovery.BM25OnlySearcher` (discovery/composite.go). -/
structure BM25OnlySearcher where
  strategy : semantic.Strategy

/-- `NewBM25OnlySearcher` (discovery/composite.go). -/
def NewBM25OnlySearcher (scorer : Option semantic.BM25Scorer) :
    BM25OnlySearcher :=
  { strategy := semantic.NewBM25Strategy scorer }

/-- The scoring loop of `BM25OnlySearcher.SearchWithScores`
(lines 174-185): normalize each document and score it with the single
strategy. -/
def bm25Collect (s : BM25OnlySearcher) (query : String) :
    Nat → List semantic.Document → Except Err (List scoredDoc) :=
  collectScored (fun doc => s.strategy query doc.Normalized)

/-- `BM25OnlySearcher.SearchWithScores` (discovery/composite.go). -/
def BM25OnlySearcher.SearchWithScores (s : BM25OnlySearcher) (query : String)
    (limit : Int) (docs : List index.SearchDoc) : Except Err (List Result) :=
  if limit ≤ 0 then .ok []
  else do
    let semDocs := semantic.DocumentsFromSearchDocs docs
    let scored ← bm25Collect s query 0 semDocs
    let sorted := sortScoredDocs scored docs
    let truncated := truncateScored sorted limit
    .ok (truncated.map (mkResult docs .bm25))

/-- `BM25OnlySearcher.Search` (discovery/composite.go). -/
def BM25OnlySearcher.Search (s : BM25OnlySearcher) (query : String)
    (limit : Int) (docs : List index.SearchDoc) :
    Except Err (List index.Summary) :=
  if limit ≤ 0 then .ok []
  else do
    let results ← s.SearchWithScores query limit docs
    .ok (results.map (·.Summary))

end discovery

/-- Replace the value under key `k` in an association list, or append the
binding when the key is absent (the model of a Go map write). -/
def upsert {α : Type} : List (String × α) → String → α → List (String × α)
  | [], k, v => [(k, v)]
  | (k₀, v₀) :: rest, k, v =>
      if k₀ = k then (k₀, v) :: rest else (k₀, v₀) :: upsert rest k v

/-- Look up key `k` in an association list (the model of a Go map read). -/
def lookupKey {α : Type} (l : List (String × α)) (k : String) : Option α :=
  (l.find? (fun e => e.1 = k)).map (·.2)

/-- Sort a list of strings ascending (`sort.Strings` / `slices.Sort`). -/
def sortStrings (l : List String) : List String :=
  List.insertionSort (fun a b : String => a ≤ b) l

namespace search

/-- The `{0}` separator byte written between fields by
`computeFingerprint`. -/
def sep : Char := Char.ofNat 0

/-- The `"\x01"` separator joining the elements of a string-slice field. -/
def sep1 : Char := Char.ofNat 1

/-- `strings.Join` with a one-character separator, at the character-list
level. -/
def joinSep (c : Char) : List (List Char) → List Char
  | [] => []
  | [a] => a
  | a :: rest => a ++ c :: joinSep c rest

/-- The twelve fields `computeFingerprint` (search package) writes for one
document, in source order: id, docText, then the summary fields id, name,
namespace, shortDescription, summary, category, the `\x01`-joined input and
output modes, securitySummary, and the sorted `\x01`-joined tags. -/
def docFields (d : index.SearchDoc) : List (List Char) :=
  [ d.ID.data,
    d.DocText.data,
    d.Summary.ID.data,
    d.Summary.Name.data,
    d.Summary.Namespace.data,
    d.Summary.ShortDescription.data,
    d.Summary.Summary.data,
    d.Summary.Category.data,
    joinSep sep1 (d.Summary.InputModes.map String.data),
    joinSep sep1 (d.Summary.OutputModes.map String.data),
    d.Summary.SecuritySummary.data,
    joinSep sep1 ((sortStrings d.Summary.Tags).map String.data) ]

/-- Frame a field list: each field is written followed by the `{0}`
separator byte. -/
def encFields : List (List Char) → List Char
  | [] => []
  | f :: fs => f ++ sep :: encFields fs

/-- The byte stream `computeFingerprint` (search package) feeds to SHA-256:
for each document its twelve `{0}`-terminated fields, documents in slice
order.  `computeFingerprint docs` itself is the hex encoding of the SHA-256
digest of this stream, so it is a function of this stream; every property
below is stated on the stream, as fine a view as the hash ever sees. -/
def fingerprintBytes (docs : List index.SearchDoc) : List Char :=
  (docs.map (fun d => encFields (docFields d))).flatten

/-- `c` does not occur in the string `s`. -/
def charFree (c : Char) (s : String) : Prop := ¬ c ∈ s.data

instance (c : Char) (s : String) : Decidable (charFree c s) := by
  unfold charFree; exact inferInstance

/-- A document all of whose string payloads avoid the fingerprint
separator bytes: no field contains the `{0}` separator, and every input
mode, output mode and tag is nonempty and avoids both separators.  On such
documents the fingerprint encoding is unambiguous. -/
def cleanDoc (d : index.SearchDoc) : Prop :=
  charFree sep d.ID ∧ charFree sep d.DocText ∧
  charFree sep d.Summary.ID ∧ charFree sep d.Summary.Name ∧
  charFree sep d.Summary.Namespace ∧
  charFree sep d.Summary.ShortDescription ∧
  charFree sep d.Summary.Summary ∧ charFree sep d.Summary.Category ∧
  charFree sep d.Summary.SecuritySummary ∧
  (∀ m ∈ d.Summary.InputModes, m ≠ "" ∧ charFree sep m ∧ charFree sep1 m) ∧
  (∀ m ∈ d.Summary.OutputModes, m ≠ "" ∧ charFree sep m ∧ charFree sep1 m) ∧
  (∀ t ∈ d.Summary.Tags, t ≠ "" ∧ charFree sep t ∧ charFree sep1 t)

instance (d : index.SearchDoc) : Decidable (cleanDoc d) := by
  unfold cleanDoc; exact inferInstance

/-- Everything the fingerprint encoding writes about one document: its id,
its doc text, every summary field, and the tag list up to order. -/
def fingerprintKey (d : index.SearchDoc) :
    String × String × String × String × String × String × String × String ×
      List String × List String × String × List String :=
  (d.ID, d.DocText, d.Summary.ID, d.Summary.Name, d.Summary.Namespace,
   d.Summary.ShortDescription, d.Summary.Summary, d.Summary.Category,
   d.Summary.InputModes, d.Summary.OutputModes, d.Summary.SecuritySummary,
   sortStrings d.Summary.Tags)

/-- `b` is `a` with its tags permuted and everything else unchanged. -/
def sameButTags (a b : index.SearchDoc) : Prop :=
  a.Summary.Tags.Perm b.Summary.Tags ∧
  b = { a with Summary := { a.Summary with Tags := b.Summary.Tags } }

end search

namespace model

/-- `model.Tool` (toolfoundation, external collaborator): the fields the
discovery layer reads.  `InputSchema` and `OutputSchema` stand for the
JSON-normalized schema payloads (opaque to this layer). -/
structure Tool where
  Name : String := ""
  Namespace : String := ""
  Version : String := ""
  Title : String := ""
  Description : String := ""
  InputSchema : String := ""
  OutputSchema : String := ""
  Tags : List String := []
  deriving DecidableEq, Repr

/-- The canonical tool id (§3 of the spec): `namespace:name:version` when
both namespace and version are set, `namespace:name` when only namespace is
set, `name` otherwise. -/
def Tool.ToolID (t : Tool) : String :=
  if t.Namespace ≠ "" ∧ t.Version ≠ "" then
    t.Namespace ++ ":" ++ t.Name ++ ":" ++ t.Version
  else if t.Namespace ≠ "" then t.Namespace ++ ":" ++ t.Name
  else t.Name

/-- Tool validation: rejects empty name and missing input schema. -/
def Tool.valid (t : Tool) : Bool :=
  t.Name ≠ "" && t.InputSchema ≠ ""

/-- `model.ToolBackend` (toolfoundation): tagged variant with Local, MCP
and Provider kinds. -/
inductive ToolBackend where
  | localB (name : String)
  | mcpB (serverName : String)
  | providerB (providerID : String) (toolID : String)
  deriving DecidableEq, Repr

/-- Backend validation: the kind-specific discriminators must be
nonempty. -/
def ToolBackend.valid : ToolBackend → Bool
  | .localB name => name ≠ ""
  | .mcpB serverName => serverName ≠ ""
  | .providerB pid tid => pid ≠ "" && tid ≠ ""

/-- The backend identity string (kind plus discriminators; the Provider
discriminators are joined with a null byte so the identity is
collision-free). -/
def ToolBackend.identity : ToolBackend → String
  | .localB name => "local/" ++ name
  | .mcpB serverName => "mcp/" ++ serverName
  | .providerB pid tid =>
      "provider/" ++ pid ++ String.singleton (Char.ofNat 0) ++ tid

end model

namespace index

/-- The MCP-visible field check performed on re-registration (§4.1 of the
spec): name, title, description and the normalized schemas must equal the
stored ones; tags and version may differ. -/
def mcpFieldsEqual (a b : model.Tool) : Bool :=
  a.Name = b.Name && a.Title = b.Title && a.Description = b.Description &&
    a.InputSchema = b.InputSchema && a.OutputSchema = b.OutputSchema

/-- Modelled from the spec: `index.ToolRecord` (index package, not in this
snapshot) — the accepted tool and its backend set keyed by backend
identity. -/
structure ToolRecord where
  tool : model.Tool
  backends : List (String × model.ToolBackend)
  deriving DecidableEq, Repr

/-- Modelled from the spec: the record store of `index.InMemoryIndex`
(index package, not in this snapshot).  The version counter, namespace set,
search-doc cache and listener registry of the full index are bookkeeping
the claims below do not touch and are omitted. -/
structure IndexState where
  records : List (String × ToolRecord) := []
  deriving DecidableEq, Repr

/-- Whether the index currently holds a record for `id`. -/
def IndexState.contains (st : IndexState) (id : String) : Bool :=
  (lookupKey st.records id).isSome

/-- Modelled from the spec: `InMemoryIndex.RegisterTool` (index package,
not in this snapshot; §4.2 of the spec): validate tool and backend, check
the MCP-visible fields against an existing record for the same id, then
replace-or-add the backend keyed by its identity and replace the stored
tool. -/
def RegisterTool (st : IndexState) (tool : model.Tool)
    (backend : model.ToolBackend) : Except Err IndexState :=
  if ¬ tool.valid then .error .invalidTool
  else if ¬ backend.valid then .error .invalidBackend
  else
    let id := tool.ToolID
    match lookupKey st.records id with
    | some record =>
        if ¬ mcpFieldsEqual record.tool tool then .error .invalidTool
        else
          .ok ⟨upsert st.records id
            { tool := tool
              backends := upsert record.backends backend.identity backend }⟩
    | none =>
        .ok ⟨upsert st.records id
          { tool := tool, backends := [(backend.identity, backend)] }⟩

/-- One registration step of `RegisterToolsFromMCP`. -/
def registerFromMCPStep (serverName : String) (st : IndexState)
    (tool : model.Tool) : Except Err IndexState :=
  RegisterTool st tool (.mcpB serverName)

/-- Modelled from the spec: `InMemoryIndex.RegisterToolsFromMCP` (index
package, not in this snapshot; §4.2 of the spec): validate every tool
before any is applied, then register each under an MCP backend carrying
`serverName`. -/
def RegisterToolsFromMCP (st : IndexState) (serverName : String)
    (tools : List model.Tool) : Except Err IndexState :=
  if ¬ tools.all model.Tool.valid then .error .invalidTool
  else tools.foldlM (registerFromMCPStep serverName) st

end index

namespace tooldoc

/-- An example-arguments JSON value (`map[string]any` payloads). -/
inductive ArgValue where
  | strV (s : String)
  | numV (n : Int)
  | boolV (b : Bool)
  | mapV (entries : List (String × ArgValue))
  | arrV (items : List ArgValue)

mutual

/-- Nesting depth of an args value: scalars have depth 0, a map or slice is
one deeper than its deepest element (`depth=2` for
`{"name": _, "config": {"enabled": _}}` per the package examples). -/
def argDepth : ArgValue → Nat
  | .strV _ => 0
  | .numV _ => 0
  | .boolV _ => 0
  | .mapV entries => 1 + entriesDepth entries
  | .arrV items => 1 + itemsDepth items

/-- Depth of the deepest value of a map. -/
def entriesDepth : List (String × ArgValue) → Nat
  | [] => 0
  | e :: rest => max (argDepth e.2) (entriesDepth rest)

/-- Depth of the deepest item of a slice. -/
def itemsDepth : List ArgValue → Nat
  | [] => 0
  | v :: rest => max (argDepth v) (itemsDepth rest)

end

mutual

/-- Total size of an args value: map keys plus slice items, aggregated
recursively (`keys=3` for `{"name": _, "config": {"enabled": _}}` per the
package examples). -/
def argKeys : ArgValue → Nat
  | .strV _ => 0
  | .numV _ => 0
  | .boolV _ => 0
  | .mapV entries => entries.length + entriesKeys entries
  | .arrV items => items.length + itemsKeys items

/-- Aggregated size of the values of a map. -/
def entriesKeys : List (String × ArgValue) → Nat
  | [] => 0
  | e :: rest => argKeys e.2 + entriesKeys rest

/-- Aggregated size of the items of a slice. -/
def itemsKeys : List ArgValue → Nat
  | [] => 0
  | v :: rest => argKeys v + itemsKeys rest

end

/-- `MaxArgsDepth` (5): maximum nesting depth for example args. -/
def MaxArgsDepth : Nat := 5

/-- `MaxArgsKeys` (50): maximum total size for example args. -/
def MaxArgsKeys : Nat := 50

/-- `ArgStats`: the measured depth and size of an args payload. -/
structure ArgStats where
  Depth : Nat
  Keys : Nat
  deriving DecidableEq, Repr

/-- Modelled from the spec: `tooldoc.ValidateArgs` (tooldoc package, not in
this snapshot; caps documented in the package doc comment and exercised by
`ExampleValidateArgs`): measure the args and accept iff depth ≤ 5 and total
size ≤ 50. -/
def ValidateArgs (args : List (String × ArgValue)) : ArgStats × Bool :=
  let stats : ArgStats :=
    { Depth := argDepth (.mapV args), Keys := argKeys (.mapV args) }
  (stats, decide (stats.Depth ≤ MaxArgsDepth) && decide (stats.Keys ≤ MaxArgsKeys))

/-- `tooldoc.ToolExample`: one worked example of a tool invocation. -/
structure ToolExample where
  ID : String := ""
  Title : String := ""
  Description : String := ""
  Args : List (String × ArgValue) := []
  ResultHint : String := ""

/-- `tooldoc.DocEntry`: the registered documentation payload. -/
structure DocEntry where
  Summary : String := ""
  Notes : String := ""
  Examples : List ToolExample := []
  ExternalRefs : List String := []

/-- Truncate a string to at most `n` characters (the field caps; Go slices
bytes, which coincides on ASCII data). -/
def truncateStr (n : Nat) (s : String) : String :=
  if s.length > n then (s.toList.take n).asString else s

/-- Cap-truncate one example: description ≤ 300, result hint ≤ 200. -/
def truncateExample (ex : ToolExample) : ToolExample :=
  { ex with
    Description := truncateStr 300 ex.Description
    ResultHint := truncateStr 200 ex.ResultHint }

/-- Cap-truncate an entry: summary ≤ 200, notes ≤ 2000. -/
def truncateEntry (entry : DocEntry) : DocEntry :=
  { entry with
    Summary := truncateStr 200 entry.Summary
    Notes := truncateStr 2000 entry.Notes
    Examples := entry.Examples.map truncateExample }

/-- Modelled from the spec: the documentation map of `tooldoc.InMemoryStore`
(tooldoc package, not in this snapshot) with its `MaxExamples` cap. -/
structure InMemoryStore where
  entries : List (String × DocEntry) := []
  maxExamples : Nat := 10

/-- Modelled from the spec: `InMemoryStore.RegisterDoc` (tooldoc package,
not in this snapshot; §4.4 of the spec): any example whose args exceed the
caps fails the entire registration with `ErrArgsTooLarge` and leaves the
store unchanged; otherwise the cap-truncated entry is stored under the tool
id. -/
def RegisterDoc (st : InMemoryStore) (toolID : String) (entry : DocEntry) :
    Except Err InMemoryStore :=
  if ¬ entry.Examples.all (fun ex => (ValidateArgs ex.Args).2) then
    .error .argsTooLarge
  else
    .ok { st with entries := upsert st.entries toolID (truncateEntry entry) }

end tooldoc

namespace provider

/-- `adapter.CanonicalProvider` (toolfoundation, external collaborator):
provider metadata; the provider store reads `Name` and `Version`. -/
structure CanonicalProvider where
  Name : String := ""
  Version : String := ""
  Description : String := ""
  deriving DecidableEq, Repr

/-- `provider.ProviderID` (provider/provider.go): a stable id from
name/version — empty for an empty name, `name` without a version,
`name:version` otherwise. -/
def ProviderID (name version : String) : String :=
  if name = "" then ""
  else if version = "" then name
  else name ++ ":" ++ version

/-- The provider map of `provider.InMemoryStore` (provider/provider.go),
modelled as an association list with unique keys. -/
abbrev StoreState : Type := List (String × CanonicalProvider)

/-- `InMemoryStore.RegisterProvider` (provider/provider.go): reject an
empty provider name; resolve an empty id through `ProviderID`; store the
provider under the resolved id (a map write: last write wins).  Returns the
resolved id. -/
def RegisterProvider (st : StoreState) (id : String)
    (p : CanonicalProvider) : Except Err (String × StoreState) :=
  if p.Name = "" then .error .invalidProvider
  else
    let id := if id = "" then ProviderID p.Name p.Version else id
    if id = "" then .error .invalidProviderID
    else .ok (id, upsert st id p)

/-- `InMemoryStore.DescribeProvider` (provider/provider.go). -/
def DescribeProvider (st : StoreState) (id : String) :
    Except Err CanonicalProvider :=
  if id = "" then .error .invalidProviderID
  else
    match lookupKey st id with
    | none => .error .notFound
    | some p => .ok p

/-- `InMemoryStore.ListProviders` (provider/provider.go): collect the map
keys, sort them, and look each provider up in sorted-key order. -/
def ListProviders (st : StoreState) : List CanonicalProvider :=
  (sortStrings (st.map (·.1))).map (fun id => (lookupKey st id).getD {})

/-- The spec-side description of `ListProviders` ("sorted by id"): the
stored providers, reordered so that their ids ascend. -/
def providersSortedByID (st : StoreState) : List CanonicalProvider :=
  (List.insertionSort
    (fun a b : String × CanonicalProvider => a.1 ≤ b.1) st).map (·.2)

end provider

namespace mcp

/-- `mcp.Content` (go-sdk, external collaborator): a content item of a tool
call result; only text content is inspected by the registry. -/
inductive Content where
  | textContent (text : String)
  | otherContent (kind : String)
  deriving DecidableEq, Repr

/-- `mcp.CallToolResult` (go-sdk, external collaborator).  The structured
content payload is opaque to the registry and modelled as a string. -/
structure CallToolResult where
  IsError : Bool := false
  Content : List Content := []
  StructuredContent : Option String := none
  deriving DecidableEq, Repr

end mcp

namespace registry

/-- The `any` value `mcpBackend.callTool` returns for a tool call. -/
inductive CallValue where
  | nullValue
  | textValue (s : String)
  | structuredValue (j : String)
  | contentValue (l : List mcp.Content)
  deriving DecidableEq, Repr

/-- The first nonempty text content of a result (the loop of
`toolResultError`, registry/mcp.go lines 289-293). -/
def firstNonemptyText : List mcp.Content → Option String
  | [] => none
  | .textContent s :: rest =>
      if s ≠ "" then some s else firstNonemptyText rest
  | .otherContent _ :: rest => firstNonemptyText rest

/-- `toolResultValue` (registry/mcp.go): structured content is returned
as-is; a single text item yields its text; otherwise the raw content array
is returned. -/
def toolResultValue (result : Option mcp.CallToolResult) : CallValue :=
  match result with
  | none => .nullValue
  | some r =>
      match r.StructuredContent with
      | some j => .structuredValue j
      | none =>
          match r.Content with
          | [.textContent s] => .textValue s
          | content => .contentValue content

/-- `toolResultError` (registry/mcp.go): the first nonempty text content,
else the formatted structured content, else a fixed message.  The
`fmt.Sprintf("%v", …)` rendering of the opaque structured payload is the
payload itself in the model. -/
def toolResultError (result : Option mcp.CallToolResult) : String :=
  match result with
  | none => "tool execution failed"
  | some r =>
      match firstNonemptyText r.Content with
      | some s => s
      | none =>
          match r.StructuredContent with
          | some j => j
          | none => "tool execution failed"

/-- The result mapping of `mcpBackend.callTool` (registry/mcp.go lines
175-181), applied to the value `session.CallTool` returned: a nil result
yields nil; a result flagged as an error yields `ErrExecutionFailed`
carrying `toolResultError`; otherwise `toolResultValue`. -/
def callToolResultMapping (result : Option mcp.CallToolResult) :
    Except Err CallValue :=
  match result with
  | none => .ok .nullValue
  | some r =>
      if r.IsError then .error (.executionFailed (toolResultError (some r)))
      else .ok (toolResultValue (some r))

/-- The connection-relevant state of one registered `mcpBackend`: whether
its transport will connect, and the tool list its server reports on
`ListTools`. -/
structure MCPBackendModel where
  connectOK : Bool := true
  tools : List model.Tool := []
  deriving Repr

/-- The state of `registry.Registry` read and written by `Start`: the
started flag, the names of currently connected backends, the registered
backends (in one iteration order of the Go map), and the index. -/
structure RegState where
  started : Bool := false
  connectedNames : List String := []
  backends : List (String × MCPBackendModel) := []
  idx : index.IndexState := {}
  deriving Repr

/-- The backend loop of `Registry.Start` (registry/registry.go lines
200-221): connect each backend in turn and register its tools; on a
connect or register failure disconnect every backend connected during this
call, clear the started flag, and return the error. -/
def startLoop : List (String × MCPBackendModel) → List String → RegState →
    Except Err Unit × RegState
  | [], _, st => (.ok (), st)
  | (name, b) :: rest, connected, st =>
      if ¬ b.connectOK then
        (.error (.connectFailed name),
         { st with
            started := false
            connectedNames :=
              st.connectedNames.filter (fun n => ¬ n ∈ connected) })
      else
        let st₁ := { st with connectedNames := st.connectedNames ++ [name] }
        let connected₁ := connected ++ [name]
        match index.RegisterToolsFromMCP st₁.idx name b.tools with
        | .error _ =>
            (.error (.registerFailed name),
             { st₁ with
                started := false
                connectedNames :=
                  st₁.connectedNames.filter (fun n => ¬ n ∈ connected₁) })
        | .ok idx₁ => startLoop rest connected₁ { st₁ with idx := idx₁ }

/-- `Registry.Start` (registry/registry.go): fail with `ErrAlreadyStarted`
when started; otherwise set the started flag and run the backend loop over
the registered backends. -/
def Start (st : RegState) : Except Err Unit × RegState :=
  if st.started then (.error .alreadyStarted, st)
  else startLoop st.backends [] { st with started := true }

end registry

namespace discovery

/-- Which searcher `discovery.New` installed (`d.searcher` together with
`d.compositeS`). -/
inductive SearcherChoice where
  | hybridS (h : HybridSearcher)
  | customS
  | bm25S

/-- `discovery.Options` (discovery/discovery.go).  The `Searcher` option is
an externally supplied `index.Searcher`; only its presence steers `New`,
so it is modelled by presence. -/
structure Options where
  Index : Option index.IndexState := none
  Searcher : Option Unit := none
  Embedder : Option semantic.Embedder := none
  HybridAlpha : ℚ := 0
  MaxExamples : Nat := 0

/-- The state of `discovery.Discovery` the claims below read: the index,
the installed searcher, the composite searcher when hybrid search is
active, the score provenance tag, and the doc store. -/
structure Discovery where
  idx : index.IndexState
  searcher : SearcherChoice
  compositeS : Option HybridSearcher
  scoreType : ScoreType
  docs : tooldoc.InMemoryStore

/-- The doc-store setup of `discovery.New` (lines 102-125): a zero
`MaxExamples` defaults to 10. -/
def newDocStore (opts : Options) : tooldoc.InMemoryStore :=
  { entries := []
    maxExamples := if opts.MaxExamples = 0 then 10 else opts.MaxExamples }

/-- `discovery.New` (discovery/discovery.go): a nil index is replaced by a
fresh one; an embedder selects hybrid search — with `HybridAlpha == 0`
treated as unset and defaulted to `0.5` — else a supplied searcher is used,
else the default BM25 searcher. -/
def New (opts : Options) : Except Err Discovery :=
  let idx := opts.Index.getD {}
  match opts.Embedder with
  | some _ =>
      let alpha := opts.HybridAlpha
      let alpha := if alpha = 0 then 1/2 else alpha
      match NewHybridSearcher { Embedder := opts.Embedder, Alpha := alpha } with
      | .error e => .error e
      | .ok hybrid =>
          .ok { idx := idx
                searcher := .hybridS hybrid
                compositeS := some hybrid
                scoreType := .hybrid
                docs := newDocStore opts }
  | none =>
      match opts.Searcher with
      | some _ =>
          .ok { idx := idx, searcher := .customS, compositeS := none
                scoreType := .bm25, docs := newDocStore opts }
      | none =>
          .ok { idx := idx, searcher := .bm25S, compositeS := none
                scoreType := .bm25, docs := newDocStore opts }

/-- `Discovery.RegisterTool` (discovery/discovery.go lines 154-164):
register the tool and backend in the index first; when that succeeded and a
doc entry was supplied, register the documentation.  A doc registration
failure is returned to the caller, with the index registration already
applied. -/
def Discovery.RegisterTool (d : Discovery) (tool : model.Tool)
    (backend : model.ToolBackend) (doc : Option tooldoc.DocEntry) :
    Except Err Unit × Discovery :=
  match index.RegisterTool d.idx tool backend with
  | .error e => (.error e, d)
  | .ok idx₁ =>
      let d₁ := { d with idx := idx₁ }
      match doc with
      | none => (.ok (), d₁)
      | some entry =>
          match tooldoc.RegisterDoc d₁.docs tool.ToolID entry with
          | .error e => (.error e, d₁)
          | .ok docs₁ => (.ok (), { d₁ with docs := docs₁ })

end discovery

/-
  ===========================================================================
  Theorems
  ===========================================================================
-/

/-- C3, the claim as stated, refuted: the round trip
`SearchDocFromDocument ∘ DocumentFromSearchDoc` does not preserve every
non-category field.  At this document the `Summary.Summary`,
`Summary.InputModes` and `Summary.SecuritySummary` fields are all lost
(`Document` has no place to carry them), so the result differs from the
input in more than the opaque category. -/
theorem c3_roundtrip_counterexample :
    (semantic.SearchDocFromDocument (semantic.DocumentFromSearchDoc
      { ID := "git:status", DocText := "git status",
        Summary := { ID := "git:status", Name := "status",
                     Namespace := "git", ShortDescription := "short",
                     Summary := "mirrors short", InputModes := ["text"],
                     OutputModes := ["json"], SecuritySummary := "oauth",
                     Tags := ["vcs"] } })).Summary.Summary = "" ∧
    (semantic.SearchDocFromDocument (semantic.DocumentFromSearchDoc
      { ID := "git:status", DocText := "git status",
        Summary := { ID := "git:status", Name := "status",
                     Namespace := "git", ShortDescription := "short",
                     Summary := "mirrors short", InputModes := ["text"],
                     OutputModes := ["json"], SecuritySummary := "oauth",
                     Tags := ["vcs"] } })).Summary.InputModes = [] ∧
    (semantic.SearchDocFromDocument (semantic.DocumentFromSearchDoc
      { ID := "git:status", DocText := "git status",
        Summary := { ID := "git:status", Name := "status",
                     Namespace := "git", ShortDescription := "short",
                     Summary := "mirrors short", InputModes := ["text"],
                     OutputModes := ["json"], SecuritySummary := "oauth",
                     Tags := ["vcs"] } })).Summary.SecuritySummary = "" ∧
    ("mirrors short" : String) ≠ "" ∧ (["text"] : List String) ≠ [] := by
  refine ⟨rfl, rfl, rfl, by decide, by decide⟩

/-- C3 as amended: the round trip preserves the id, the name, the
namespace, the tags, and the doc text when nonempty; the short description
survives up to the 120-character cap; `Summary.ID` is overwritten with the
document id; and the `Summary.Summary`, `Category`, `InputModes`,
`OutputModes` and `SecuritySummary` fields are cleared, because `Document`
does not carry them.  An empty doc text is rebuilt from the projected
fields. -/
theorem c3_roundtrip_amended (d : index.SearchDoc) :
    semantic.SearchDocFromDocument (semantic.DocumentFromSearchDoc d) =
      { ID := d.ID
        DocText :=
          if d.DocText = "" then
            semantic.buildDocText (semantic.DocumentFromSearchDoc d)
          else d.DocText
        Summary :=
          { ID := d.ID
            Name := d.Summary.Name
            Namespace := d.Summary.Namespace
            ShortDescription :=
              if d.Summary.ShortDescription.length >
                  index.MaxShortDescriptionLen then
                (d.Summary.ShortDescription.toList.take
                  index.MaxShortDescriptionLen).asString
              else d.Summary.ShortDescription
            Summary := ""
            Category := ""
            InputModes := []
            OutputModes := []
            SecuritySummary := ""
            Tags := d.Summary.Tags } } := rfl

/-- C5, confirmed: the MCP tool-call result mapping of `mcpBackend.callTool`.
A result flagged as an error surfaces `ExecutionFailed` carrying the
result's (first nonempty) text content when present; otherwise structured
content is returned as-is; otherwise a single text item yields its text
string; otherwise the raw content array is returned. -/
theorem c5_call_tool_result_mapping (r : mcp.CallToolResult) :
    (r.IsError = true →
      registry.callToolResultMapping (some r) =
        .error (.executionFailed (registry.toolResultError (some r))) ∧
      ∀ s, registry.firstNonemptyText r.Content = some s →
        registry.toolResultError (some r) = s) ∧
    (r.IsError = false → ∀ j, r.StructuredContent = some j →
      registry.callToolResultMapping (some r) = .ok (.structuredValue j)) ∧
    (r.IsError = false → r.StructuredContent = none →
      ∀ s, r.Content = [.textContent s] →
        registry.callToolResultMapping (some r) = .ok (.textValue s)) ∧
    (r.IsError = false → r.StructuredContent = none →
      (∀ s, r.Content ≠ [.textContent s]) →
        registry.callToolResultMapping (some r) =
          .ok (.contentValue r.Content)) := by
  refine ⟨fun herr => ⟨?_, ?_⟩, fun herr j hj => ?_, fun herr hsc s hs => ?_,
    fun herr hsc hnot => ?_⟩
  · simp [registry.callToolResultMapping, herr]
  · intro s hs
    simp [registry.toolResultError, hs]
  · simp [registry.callToolResultMapping, registry.toolResultValue, herr, hj]
  · simp [registry.callToolResultMapping, registry.toolResultValue, herr,
      hsc, hs]
  · simp only [registry.callToolResultMapping, registry.toolResultValue,
      herr, hsc, Bool.false_eq_true, if_false]

/-- C5 witness: the mapping evaluated on concrete results of each of the
four shapes the claim describes. -/
theorem c5_call_tool_result_mapping_witness :
    registry.callToolResultMapping
        (some { IsError := true, Content := [.textContent "boom"] }) =
      .error (.executionFailed "boom") ∧
    registry.callToolResultMapping
        (some { StructuredContent := some "\x7bok\x7d" }) =
      .ok (.structuredValue "\x7bok\x7d") ∧
    registry.callToolResultMapping
        (some { Content := [.textContent "hi"] }) = .ok (.textValue "hi") ∧
    registry.callToolResultMapping
        (some { Content := [.otherContent "image", .textContent "x"] }) =
      .ok (.contentValue [.otherContent "image", .textContent "x"]) := by
  refine ⟨?_, ?_, ?_, ?_⟩
  · have h := (c5_call_tool_result_mapping
      { IsError := true, Content := [.textContent "boom"] }).1 rfl
    have hmsg := h.2 "boom" rfl
    rw [h.1, hmsg]
  · exact (c5_call_tool_result_mapping
      { StructuredContent := some "\x7bok\x7d" }).2.1 rfl "\x7bok\x7d" rfl
  · exact (c5_call_tool_result_mapping
      { Content := [.textContent "hi"] }).2.2.1 rfl rfl "hi" rfl
  · exact (c5_call_tool_result_mapping
      { Content := [.otherContent "image", .textContent "x"] }).2.2.2 rfl rfl
      (by intro s h; simp at h)

/-- C6, confirmed: `NewHybridSearcher` fails with `ErrInvalidEmbedder` on a
nil embedder and with `ErrInvalidHybridConfig` when the weight is outside
`[0,1]`; every successfully constructed searcher carries the requested
weight `α`, and whenever both strategies score a document the hybrid score
is `α·bm25 + (1−α)·embedding`. -/
theorem c6_hybrid_construction_and_score :
    (∀ opts : discovery.HybridOptions, opts.Embedder = none →
        discovery.NewHybridSearcher opts = .error .invalidEmbedder) ∧
    (∀ (opts : discovery.HybridOptions) f, opts.Embedder = some f →
        (opts.Alpha < 0 ∨ opts.Alpha > 1) →
        discovery.NewHybridSearcher opts = .error .invalidHybridConfig) ∧
    (∀ (opts : discovery.HybridOptions) (h : discovery.HybridSearcher),
        discovery.NewHybridSearcher opts = .ok h →
        h.alpha = opts.Alpha ∧
        ∀ (query : String) (doc : semantic.Document) (b e : ℚ),
          h.bm25Strategy query doc.Normalized = .ok b →
          h.embeddingStrategy query doc.Normalized = .ok e →
          discovery.hybridDocScore h query doc =
            .ok (opts.Alpha * b + (1 - opts.Alpha) * e)) := by
  refine ⟨?_, ?_, ?_⟩
  · intro opts hemb
    unfold discovery.NewHybridSearcher
    rw [hemb]
  · intro opts f hemb hrange
    unfold discovery.NewHybridSearcher
    rw [hemb]
    exact if_pos hrange
  · intro opts h hok
    unfold discovery.NewHybridSearcher at hok
    cases hemb : opts.Embedder with
    | none => rw [hemb] at hok; exact absurd hok (by simp)
    | some f =>
        rw [hemb] at hok
        by_cases hr : opts.Alpha < 0 ∨ opts.Alpha > 1
        · rw [if_pos hr] at hok
          exact absurd hok (by simp)
        · rw [if_neg hr] at hok
          injection hok with hh
          subst hh
          refine ⟨rfl, ?_⟩
          intro query doc b e hb he
          dsimp only at hb he
          simp only [discovery.hybridDocScore]
          rw [hb, he]
          rfl

/-- C6 witness: a nil embedder and an out-of-range weight are rejected; the
searcher built with weight `1/2` scores a concrete document to
`1/2·1 + (1 − 1/2)·1`. -/
theorem c6_hybrid_construction_and_score_witness :
    discovery.NewHybridSearcher {} = .error .invalidEmbedder ∧
    discovery.NewHybridSearcher
        { Embedder := some (fun _ => .ok [1, 0]), Alpha := 2 } =
      .error .invalidHybridConfig ∧
    discovery.hybridDocScore
        { bm25Strategy := semantic.NewBM25Strategy none
          embeddingStrategy :=
            semantic.NewEmbeddingStrategy (some (fun _ => .ok [1, 0]))
          alpha := 1/2 } "t" { Text := "t" } =
      .ok ((1 : ℚ)/2 * 1 + (1 - 1/2) * 1) := by
  refine ⟨?_, ?_, ?_⟩
  · exact c6_hybrid_construction_and_score.1 {} rfl
  · exact c6_hybrid_construction_and_score.2.1
      { Embedder := some (fun _ => .ok [1, 0]), Alpha := 2 }
      (fun _ => .ok [1, 0]) rfl (Or.inr (by norm_num))
  · have hb : semantic.NewBM25Strategy none "t"
        ({ Text := "t" } : semantic.Document).Normalized = .ok 1 := by
      simp [semantic.NewBM25Strategy, semantic.defaultBM25Score,
        semantic.tokens, semantic.toLowerStr, semantic.lowerChar,
        semantic.fieldsAux, semantic.Document.Normalized]
    have he : semantic.NewEmbeddingStrategy (some (fun _ => .ok [1, 0])) "t"
        ({ Text := "t" } : semantic.Document).Normalized = .ok 1 := by
      simp [semantic.NewEmbeddingStrategy, semantic.cosineSimilarity,
        semantic.dotProduct, semantic.sumSquares, semantic.ratSqrt,
        bind, Except.bind]
    exact (c6_hybrid_construction_and_score.2.2
      { Embedder := some (fun _ => .ok [1, 0]), Alpha := 1/2 }
      { bm25Strategy := semantic.NewBM25Strategy none
        embeddingStrategy :=
          semantic.NewEmbeddingStrategy (some (fun _ => .ok [1, 0]))
        alpha := 1/2 }
      (by unfold discovery.NewHybridSearcher; rw [if_neg (by norm_num)])).2
      "t" { Text := "t" } 1 1 hb he

theorem lookupKey_upsert_self {α : Type} (l : List (String × α)) (k : String)
    (v : α) : lookupKey (upsert l k v) k = some v := by
  induction l with
  | nil => simp [upsert, lookupKey]
  | cons e rest ih =>
      by_cases h : e.1 = k
      · simp [upsert, h, lookupKey]
      · simp only [upsert, if_neg h]
        simpa [lookupKey, List.find?_cons, h] using ih

theorem lookupKey_eq_of_mem {α : Type} {l : List (String × α)}
    (hnd : (l.map Prod.fst).Nodup) {k : String} {v : α}
    (hmem : (k, v) ∈ l) : lookupKey l k = some v := by
  induction l with
  | nil => cases hmem
  | cons e rest ih =>
      rcases List.mem_cons.mp hmem with heq | hmem₂
      · rw [← heq]
        simp [lookupKey]
      · have hk : k ∈ rest.map Prod.fst :=
          List.mem_map.mpr ⟨(k, v), hmem₂, rfl⟩
        have hne : e.1 ≠ k := fun hkk =>
          (List.nodup_cons.mp (by simpa using hnd)).1 (hkk ▸ hk)
        have ih₂ := ih (List.nodup_cons.mp (by simpa using hnd)).2 hmem₂
        simpa [lookupKey, List.find?_cons, hne] using ih₂

theorem string_append_colon_ne_empty (a b : String) : a ++ ":" ++ b ≠ "" := by
  intro h
  have hlen := congrArg String.length h
  simp [String.length_append] at hlen
  exact absurd hlen.1.2 (by decide)

/-- C9, confirmed: the provider registry rejects an empty provider name;
an empty id resolves deterministically to `name` (or `name:version`); a
second registration under the same id overwrites the first, so
`DescribeProvider` returns the last value; and `ListProviders` returns all
stored providers in ascending id order. -/
theorem c9_provider_registry :
    (∀ (st : provider.StoreState) (id : String)
        (p : provider.CanonicalProvider), p.Name = "" →
        provider.RegisterProvider st id p = .error .invalidProvider) ∧
    (∀ (st : provider.StoreState) (p : provider.CanonicalProvider),
        p.Name ≠ "" →
        provider.RegisterProvider st "" p =
          .ok (provider.ProviderID p.Name p.Version,
               upsert st (provider.ProviderID p.Name p.Version) p) ∧
        provider.ProviderID p.Name p.Version =
          (if p.Version = "" then p.Name else p.Name ++ ":" ++ p.Version)) ∧
    (∀ (st : provider.StoreState) (id : String)
        (p₁ p₂ : provider.CanonicalProvider)
        (r₁ r₂ : String × provider.StoreState), id ≠ "" →
        provider.RegisterProvider st id p₁ = .ok r₁ →
        provider.RegisterProvider r₁.2 id p₂ = .ok r₂ →
        provider.DescribeProvider r₂.2 id = .ok p₂) ∧
    (∀ st : provider.StoreState, (st.map Prod.fst).Nodup →
        provider.ListProviders st = provider.providersSortedByID st) ∧
    (∀ st : provider.StoreState,
        (provider.providersSortedByID st).Perm (st.map Prod.snd)) := by
  refine ⟨?_, ?_, ?_, ?_, ?_⟩
  · intro st id p hname
    simp [provider.RegisterProvider, hname]
  · intro st p hname
    have hid : provider.ProviderID p.Name p.Version =
        (if p.Version = "" then p.Name else p.Name ++ ":" ++ p.Version) := by
      simp [provider.ProviderID, hname]
    refine ⟨?_, hid⟩
    have hne : provider.ProviderID p.Name p.Version ≠ "" := by
      rw [hid]
      by_cases hv : p.Version = ""
      · simpa [hv] using hname
      · simpa [hv] using string_append_colon_ne_empty p.Name p.Version
    simp [provider.RegisterProvider, hname, hne]
  · intro st id p₁ p₂ r₁ r₂ hid h₁ h₂
    by_cases hn₁ : p₁.Name = ""
    · simp [provider.RegisterProvider, hn₁] at h₁
    by_cases hn₂ : p₂.Name = ""
    · simp [provider.RegisterProvider, hn₂] at h₂
    simp [provider.RegisterProvider, hn₁, hid] at h₁
    simp [provider.RegisterProvider, hn₂, hid] at h₂
    rw [← h₂]
    simp [provider.DescribeProvider, hid, lookupKey_upsert_self]
  · intro st hnd
    haveI : IsTotal (String × provider.CanonicalProvider)
        (fun a b => a.1 ≤ b.1) := ⟨fun a b => le_total a.1 b.1⟩
    haveI : IsTrans (String × provider.CanonicalProvider)
        (fun a b => a.1 ≤ b.1) := ⟨fun _ _ _ => le_trans⟩
    have hperm : (List.insertionSort
        (fun a b : String × provider.CanonicalProvider => a.1 ≤ b.1) st).Perm
          st :=
      List.perm_insertionSort _ st
    have hs₁ : List.Sorted (fun a b : String => a ≤ b)
        (sortStrings (st.map Prod.fst)) :=
      List.sorted_insertionSort _ _
    have hs₂ : List.Sorted (fun a b : String => a ≤ b)
        ((List.insertionSort
          (fun a b : String × provider.CanonicalProvider => a.1 ≤ b.1)
            st).map Prod.fst) :=
      List.Pairwise.map Prod.fst (fun a b h => h)
        (List.sorted_insertionSort _ st)
    have hp : (sortStrings (st.map Prod.fst)).Perm
        ((List.insertionSort
          (fun a b : String × provider.CanonicalProvider => a.1 ≤ b.1)
            st).map Prod.fst) :=
      (List.perm_insertionSort _ _).trans ((hperm.map Prod.fst).symm)
    have hkeys := List.eq_of_perm_of_sorted hp hs₁ hs₂
    unfold provider.ListProviders provider.providersSortedByID
    rw [hkeys, List.map_map]
    refine List.map_congr_left ?_
    intro e he
    have hmem : e ∈ st := hperm.mem_iff.mp he
    simp [Function.comp, lookupKey_eq_of_mem hnd hmem]
  · intro st
    exact (List.perm_insertionSort _ st).map Prod.snd

/-- C9 witness: the registry operations evaluated on concrete providers —
empty name rejected, id resolution, overwrite visible through
`DescribeProvider`, and a two-element store listed in id order. -/
theorem c9_provider_registry_witness :
    provider.RegisterProvider [] "x" { Name := "" } =
      .error .invalidProvider ∧
    provider.RegisterProvider [] "" { Name := "agent", Version := "1.0.0" } =
      .ok ("agent:1.0.0",
           [("agent:1.0.0", ({ Name := "agent", Version := "1.0.0" } :
              provider.CanonicalProvider))]) ∧
    provider.DescribeProvider
      [("agent", { Name := "agent", Version := "2" })] "agent" =
        .ok { Name := "agent", Version := "2" } ∧
    provider.ListProviders
      [("b", { Name := "b" }), ("a", { Name := "a" })] =
        provider.providersSortedByID
          [("b", { Name := "b" }), ("a", { Name := "a" })] := by
  refine ⟨?_, ?_, ?_, ?_⟩
  · exact c9_provider_registry.1 [] "x" { Name := "" } rfl
  · have h := (c9_provider_registry.2.1 []
      { Name := "agent", Version := "1.0.0" } (by decide)).1
    rw [h]
    rfl
  · exact c9_provider_registry.2.2.1 [] "agent"
      { Name := "agent", Version := "1" } { Name := "agent", Version := "2" }
      ("agent", [("agent", { Name := "agent", Version := "1" })])
      ("agent", [("agent", { Name := "agent", Version := "2" })])
      (by decide) (by simp [provider.RegisterProvider, upsert])
      (by simp [provider.RegisterProvider, upsert])
  · exact c9_provider_registry.2.2.2.1
      [("b", { Name := "b" }), ("a", { Name := "a" })] (by decide)

/-- C10, confirmed: with an embedder supplied, `discovery.New` treats
`HybridAlpha == 0` as unset and builds the hybrid searcher with weight
`1/2`; no `Options` value can produce a facade whose hybrid searcher has
weight 0, even though weight 0 is accepted by direct hybrid
construction. -/
theorem c10_facade_alpha_default :
    (∀ (opts : discovery.Options) (f : semantic.Embedder),
        opts.Embedder = some f → opts.HybridAlpha = 0 →
        ∃ h, discovery.New opts =
            .ok { idx := opts.Index.getD {}
                  searcher := .hybridS h
                  compositeS := some h
                  scoreType := .hybrid
                  docs := discovery.newDocStore opts } ∧
          h.alpha = 1/2) ∧
    (∀ (opts : discovery.Options) (f : semantic.Embedder)
        (d : discovery.Discovery) (h : discovery.HybridSearcher),
        opts.Embedder = some f → discovery.New opts = .ok d →
        d.compositeS = some h → h.alpha ≠ 0) ∧
    (∀ f : semantic.Embedder, ∃ h,
        discovery.NewHybridSearcher { Embedder := some f, Alpha := 0 } =
          .ok h ∧ h.alpha = 0) := by
  refine ⟨?_, ?_, ?_⟩
  · intro opts f hemb halpha
    refine ⟨{ bm25Strategy := semantic.NewBM25Strategy none
              embeddingStrategy := semantic.NewEmbeddingStrategy (some f)
              alpha := 1/2 }, ?_, rfl⟩
    unfold discovery.New discovery.NewHybridSearcher
    rw [hemb, halpha]
    dsimp only
    rw [if_pos rfl, if_neg (by norm_num)]
  · intro opts f d h hemb hnew hcomp
    unfold discovery.New discovery.NewHybridSearcher at hnew
    rw [hemb] at hnew
    dsimp only at hnew
    by_cases hz : opts.HybridAlpha = 0
    · rw [if_pos hz, if_neg (by norm_num)] at hnew
      injection hnew with hd
      rw [← hd] at hcomp
      injection hcomp with hh
      rw [← hh]
      norm_num
    · rw [if_neg hz] at hnew
      by_cases hr : opts.HybridAlpha < 0 ∨ opts.HybridAlpha > 1
      · rw [if_pos hr] at hnew
        exact absurd hnew (by simp)
      · rw [if_neg hr] at hnew
        injection hnew with hd
        rw [← hd] at hcomp
        injection hcomp with hh
        rw [← hh]
        exact hz
  · intro f
    refine ⟨{ bm25Strategy := semantic.NewBM25Strategy none
              embeddingStrategy := semantic.NewEmbeddingStrategy (some f)
              alpha := 0 }, ?_, rfl⟩
    unfold discovery.NewHybridSearcher
    dsimp only
    rw [if_neg (by norm_num)]

/-- C10 witness: on options carrying a concrete embedder and
`HybridAlpha = 0`, `New` yields a hybrid searcher of weight `1/2` (so not
0), while direct construction accepts weight 0. -/
theorem c10_facade_alpha_default_witness :
    (∃ h, discovery.New { Embedder := some (fun _ => .ok [1]) } =
        .ok { idx := {}
              searcher := .hybridS h
              compositeS := some h
              scoreType := .hybrid
              docs := discovery.newDocStore
                { Embedder := some (fun _ => .ok [1]) } } ∧
      h.alpha = 1/2) ∧
    ({ bm25Strategy := semantic.NewBM25Strategy none
       embeddingStrategy :=
         semantic.NewEmbeddingStrategy (some (fun _ => .ok [1]))
       alpha := (1 : ℚ)/2 } : discovery.HybridSearcher).alpha ≠ 0 ∧
    (∃ h, discovery.NewHybridSearcher
        { Embedder := some (fun _ => .ok [1]), Alpha := 0 } = .ok h ∧
      h.alpha = 0) := by
  refine ⟨?_, ?_, ?_⟩
  · exact c10_facade_alpha_default.1
      { Embedder := some (fun _ => .ok [1]) } (fun _ => .ok [1]) rfl rfl
  · refine c10_facade_alpha_default.2.1
      { Embedder := some (fun _ => .ok [1]) } (fun _ => .ok [1])
      { idx := {}
        searcher := .hybridS
          { bm25Strategy := semantic.NewBM25Strategy none
            embeddingStrategy :=
              semantic.NewEmbeddingStrategy (some (fun _ => .ok [1]))
            alpha := (1 : ℚ)/2 }
        compositeS := some
          { bm25Strategy := semantic.NewBM25Strategy none
            embeddingStrategy :=
              semantic.NewEmbeddingStrategy (some (fun _ => .ok [1]))
            alpha := (1 : ℚ)/2 }
        scoreType := .hybrid
        docs := discovery.newDocStore
          { Embedder := some (fun _ => .ok [1]) } } _ rfl ?_ rfl
    unfold discovery.New discovery.NewHybridSearcher
    dsimp only
    rw [if_pos rfl, if_neg (by norm_num)]
    rfl
  · exact c10_facade_alpha_default.2.2 (fun _ => .ok [1])

/-- C1, the claim as stated, refuted: registering a tool together with a
doc entry whose example args are nested 6 deep makes
`Discovery.RegisterTool` return `ErrArgsTooLarge` — but the index has
already accepted the tool: `RegisterTool` writes the index before it
validates the documentation (discovery.go lines 154-164), and the failed
call leaves the tool registered. -/
theorem c1_register_tool_counterexample :
    (discovery.Discovery.RegisterTool
        { idx := {}, searcher := .bm25S, compositeS := none
          scoreType := .bm25, docs := {} }
        { Name := "t", InputSchema := "obj" } (model.ToolBackend.mcpB "s")
        (some { Summary := "doc"
                Examples := [{ Title := "deep"
                               Args := [("l1", .mapV [("l2", .mapV [("l3",
                                 .mapV [("l4", .mapV [("l5", .mapV [("l6",
                                 .strV "x")])])])])])] }] })).1
      = .error .argsTooLarge ∧
    (discovery.Discovery.RegisterTool
        { idx := {}, searcher := .bm25S, compositeS := none
          scoreType := .bm25, docs := {} }
        { Name := "t", InputSchema := "obj" } (model.ToolBackend.mcpB "s")
        (some { Summary := "doc"
                Examples := [{ Title := "deep"
                               Args := [("l1", .mapV [("l2", .mapV [("l3",
                                 .mapV [("l4", .mapV [("l5", .mapV [("l6",
                                 .strV "x")])])])])])] }] })).2.idx.contains
      "t" = true ∧
    ({ records := [] } : index.IndexState).contains "t" = false := by
  refine ⟨by decide, by decide, by decide⟩

/-- C1 as amended: when the tool and backend are valid, the tool id is not
yet registered, and the supplied doc entry has an example whose args fail
validation, `Discovery.RegisterTool` returns the `ArgsTooLarge` error —
but the index does contain the tool afterwards: the failed call is not
transactional, the index write precedes doc validation and is not rolled
back. -/
theorem c1_register_tool_doc_failure_amended
    (d : discovery.Discovery) (tool : model.Tool)
    (backend : model.ToolBackend) (entry : tooldoc.DocEntry)
    (htool : tool.valid = true) (hback : backend.valid = true)
    (hfresh : d.idx.contains tool.ToolID = false)
    (hargs : entry.Examples.all
      (fun ex => (tooldoc.ValidateArgs ex.Args).2) = false) :
    (d.RegisterTool tool backend (some entry)).1 = .error .argsTooLarge ∧
    (d.RegisterTool tool backend (some entry)).2.idx.contains tool.ToolID
      = true := by
  have hnone : lookupKey d.idx.records tool.ToolID = none := by
    unfold index.IndexState.contains at hfresh
    cases hl : lookupKey d.idx.records tool.ToolID with
    | none => rfl
    | some r => rw [hl] at hfresh; simp at hfresh
  have hreg : index.RegisterTool d.idx tool backend =
      .ok ⟨upsert d.idx.records tool.ToolID
        { tool := tool, backends := [(backend.identity, backend)] }⟩ := by
    simp [index.RegisterTool, hnone, htool, hback]
  have hdoc : ∀ st : tooldoc.InMemoryStore,
      tooldoc.RegisterDoc st tool.ToolID entry = .error .argsTooLarge := by
    intro st
    unfold tooldoc.RegisterDoc
    rw [if_pos (by simp [hargs])]
  unfold discovery.Discovery.RegisterTool
  rw [hreg]
  dsimp only
  rw [hdoc]
  exact ⟨rfl, by simp [index.IndexState.contains, lookupKey_upsert_self]⟩

/-- C1 witness: the amended statement evaluated at a concrete tool,
backend and oversized doc entry on an empty facade. -/
theorem c1_register_tool_doc_failure_witness :
    (discovery.Discovery.RegisterTool
        { idx := {}, searcher := .bm25S, compositeS := none
          scoreType := .bm25, docs := {} }
        { Name := "u", InputSchema := "obj" } (model.ToolBackend.localB "h")
        (some { Examples := [{ Title := "deep"
                               Args := [("m1", .arrV [.mapV [("m2",
                                 .mapV [("m3", .mapV [("m4", .mapV [("m5",
                                 .strV "x")])])])]])] }] })).1
      = .error .argsTooLarge ∧
    (discovery.Discovery.RegisterTool
        { idx := {}, searcher := .bm25S, compositeS := none
          scoreType := .bm25, docs := {} }
        { Name := "u", InputSchema := "obj" } (model.ToolBackend.localB "h")
        (some { Examples := [{ Title := "deep"
                               Args := [("m1", .arrV [.mapV [("m2",
                                 .mapV [("m3", .mapV [("m4", .mapV [("m5",
                                 .strV "x")])])])]])] }] })).2.idx.contains
      "u" = true :=
  c1_register_tool_doc_failure_amended
    { idx := {}, searcher := .bm25S, compositeS := none
      scoreType := .bm25, docs := {} }
    { Name := "u", InputSchema := "obj" } (model.ToolBackend.localB "h")
    { Examples := [{ Title := "deep"
                     Args := [("m1", .arrV [.mapV [("m2", .mapV [("m3",
                       .mapV [("m4", .mapV [("m5", .strV "x")])])])]])] }] }
    (by decide) (by decide) (by decide) (by decide)

theorem filter_not_mem_sub (l sup : List String)
    (hsub : ∀ x ∈ l, x ∈ sup) :
    l.filter (fun n => ¬ n ∈ sup) = [] := by
  rw [List.filter_eq_nil_iff]
  intro a ha
  simp [hsub a ha]

theorem startLoop_err_reset :
    ∀ (pending : List (String × registry.MCPBackendModel))
      (connected : List String) (st : registry.RegState),
      st.connectedNames = connected →
      ∀ (e : Err) (st' : registry.RegState),
        registry.startLoop pending connected st = (.error e, st') →
        st'.started = false ∧ st'.connectedNames = [] := by
  intro pending
  induction pending with
  | nil =>
      intro connected st hinv e st' h
      simp [registry.startLoop] at h
  | cons nb rest ih =>
      intro connected st hinv e st' h
      obtain ⟨name, b⟩ := nb
      unfold registry.startLoop at h
      by_cases hc : b.connectOK
      · rw [if_neg (by simp [hc])] at h
        dsimp only at h
        cases hr : index.RegisterToolsFromMCP st.idx name b.tools with
        | error e₂ =>
            rw [hr] at h
            injection h with h₁ h₂
            rw [← h₂]
            refine ⟨rfl, ?_⟩
            refine filter_not_mem_sub _ _ ?_
            intro x hx
            rw [hinv] at hx
            exact hx
        | ok idx₁ =>
            rw [hr] at h
            exact ih (connected ++ [name]) _ (by simp [hinv]) e st' h
      · rw [if_pos (by simp [hc])] at h
        injection h with h₁ h₂
        rw [← h₂]
        refine ⟨rfl, ?_⟩
        refine filter_not_mem_sub _ _ ?_
        intro x hx
        rw [hinv] at hx
        exact hx

/-- C4, the claim as stated, refuted: when the second backend of a `Start`
call fails to connect, `Start` returns the error, resets the started flag
and disconnects every backend connected during the call — but the tools
the first backend had already registered stay in the index (`Start` never
unregisters; registry.go lines 200-221). -/
theorem c4_start_failure_counterexample :
    (registry.Start
      { started := false, connectedNames := []
        backends :=
          [("b1", { connectOK := true
                    tools := [{ Name := "t", InputSchema := "obj" }] }),
           ("b2", { connectOK := false, tools := [] })]
        idx := {} }).1 = .error (.connectFailed "b2") ∧
    (registry.Start
      { started := false, connectedNames := []
        backends :=
          [("b1", { connectOK := true
                    tools := [{ Name := "t", InputSchema := "obj" }] }),
           ("b2", { connectOK := false, tools := [] })]
        idx := {} }).2.idx.contains "t" = true ∧
    (registry.Start
      { started := false, connectedNames := []
        backends :=
          [("b1", { connectOK := true
                    tools := [{ Name := "t", InputSchema := "obj" }] }),
           ("b2", { connectOK := false, tools := [] })]
        idx := {} }).2.started = false ∧
    (registry.Start
      { started := false, connectedNames := []
        backends :=
          [("b1", { connectOK := true
                    tools := [{ Name := "t", InputSchema := "obj" }] }),
           ("b2", { connectOK := false, tools := [] })]
        idx := {} }).2.connectedNames = [] := by
  refine ⟨by decide, by decide, by decide, by decide⟩

/-- C4 as amended: whenever `Registry.Start`, called from the New state
(not started, nothing connected), fails on any backend connect or
tool-registration step, every backend connected during that call is
disconnected, the started flag is back to false, and `Start` returns the
error — but tools registered by the backends that succeeded before the
failure are not removed from the index. -/
theorem c4_start_failure_amended (st : registry.RegState)
    (hstarted : st.started = false) (hconn : st.connectedNames = [])
    (e : Err) (st' : registry.RegState)
    (h : registry.Start st = (.error e, st')) :
    st'.started = false ∧ st'.connectedNames = [] := by
  unfold registry.Start at h
  rw [if_neg (by simp [hstarted])] at h
  exact startLoop_err_reset st.backends [] { st with started := true }
    (by simp [hconn]) e st' h

/-- C4 witness: the amended statement evaluated on a one-backend registry
whose transport fails to connect. -/
theorem c4_start_failure_amended_witness :
    (registry.Start
      { started := false, connectedNames := []
        backends := [("b", { connectOK := false, tools := [] })]
        idx := {} }).2.started = false ∧
    (registry.Start
      { started := false, connectedNames := []
        backends := [("b", { connectOK := false, tools := [] })]
        idx := {} }).2.connectedNames = [] :=
  c4_start_failure_amended
    { started := false, connectedNames := []
      backends := [("b", { connectOK := false, tools := [] })]
      idx := {} } rfl rfl (.connectFailed "b")
    (registry.Start
      { started := false, connectedNames := []
        backends := [("b", { connectOK := false, tools := [] })]
        idx := {} }).2
    (Prod.ext (by decide) rfl)

/-- C2: the failing behavior, evaluated.  With an empty query and limit 2
over two documents, both production searchers of `discovery/composite.go`
return the empty list — not the first 2 documents in id order as the
searcher contract requires: they score every document (an empty query
scores 0 everywhere), keep only positive scores, and so drop everything.
The last conjunct records that the returned list differs from the required
one. -/
theorem c2_empty_query_not_first_docs :
    discovery.BM25OnlySearcher.Search (discovery.NewBM25OnlySearcher none)
      "" 2
      [{ ID := "a", DocText := "alpha",
         Summary := { ID := "a", Name := "alpha" } },
       { ID := "b", DocText := "beta",
         Summary := { ID := "b", Name := "beta" } }]
      = .ok [] ∧
    discovery.NewHybridSearcher
        { Embedder := some (fun _ => .ok [0, 0]), Alpha := 1/2 } =
      .ok { bm25Strategy := semantic.NewBM25Strategy none
            embeddingStrategy :=
              semantic.NewEmbeddingStrategy (some (fun _ => .ok [0, 0]))
            alpha := 1/2 } ∧
    discovery.HybridSearcher.Search
      { bm25Strategy := semantic.NewBM25Strategy none
        embeddingStrategy :=
          semantic.NewEmbeddingStrategy (some (fun _ => .ok [0, 0]))
        alpha := 1/2 } "" 2
      [{ ID := "a", DocText := "alpha",
         Summary := { ID := "a", Name := "alpha" } },
       { ID := "b", DocText := "beta",
         Summary := { ID := "b", Name := "beta" } }]
      = .ok [] ∧
    ([] : List index.Summary) ≠
      [{ ID := "a", Name := "alpha" }, { ID := "b", Name := "beta" }] := by
  refine ⟨?_, ?_, ?_, by decide⟩
  · norm_num [discovery.BM25OnlySearcher.Search,
      discovery.BM25OnlySearcher.SearchWithScores,
      discovery.NewBM25OnlySearcher,
      discovery.bm25Collect, discovery.collectScored,
      discovery.sortScoredDocs, discovery.sortLoop, discovery.truncateScored,
      semantic.DocumentsFromSearchDocs, semantic.DocumentFromSearchDoc,
      semantic.NewBM25Strategy, semantic.defaultBM25Score, semantic.tokens,
      semantic.toLowerStr, semantic.lowerChar, semantic.fieldsAux,
      semantic.Document.Normalized, bind, Except.bind]
  · unfold discovery.NewHybridSearcher
    dsimp only
    rw [if_neg (by norm_num)]
  · norm_num [discovery.HybridSearcher.Search,
      discovery.HybridSearcher.SearchWithScores,
      discovery.hybridCollect, discovery.collectScored,
      discovery.hybridDocScore,
      discovery.sortScoredDocs, discovery.sortLoop, discovery.truncateScored,
      semantic.DocumentsFromSearchDocs, semantic.DocumentFromSearchDoc,
      semantic.NewBM25Strategy, semantic.defaultBM25Score, semantic.tokens,
      semantic.toLowerStr, semantic.lowerChar, semantic.fieldsAux,
      semantic.NewEmbeddingStrategy, semantic.cosineSimilarity,
      semantic.dotProduct, semantic.sumSquares, semantic.ratSqrt,
      semantic.Document.Normalized, bind, Except.bind]

theorem beats_asymm {docs : List index.SearchDoc} {a b : discovery.scoredDoc}
    (h : discovery.beats docs a b) : ¬ discovery.beats docs b a := by
  unfold discovery.beats at h ⊢
  rcases h with hlt | ⟨heq, hid⟩
  · rintro (hlt₂ | ⟨heq₂, _⟩)
    · exact absurd hlt₂ (lt_asymm hlt)
    · exact absurd heq₂ hlt.ne
  · rintro (hlt₂ | ⟨heq₂, hid₂⟩)
    · exact absurd hlt₂ (heq ▸ lt_irrefl _)
    · exact absurd hid₂ (lt_asymm hid)

theorem beats_trans {docs : List index.SearchDoc}
    {a b c : discovery.scoredDoc} (h₁ : discovery.beats docs a b)
    (h₂ : discovery.beats docs b c) : discovery.beats docs a c := by
  unfold discovery.beats at h₁ h₂ ⊢
  rcases h₁ with hlt₁ | ⟨heq₁, hid₁⟩ <;> rcases h₂ with hlt₂ | ⟨heq₂, hid₂⟩
  · exact Or.inl (lt_trans hlt₂ hlt₁)
  · exact Or.inl (heq₂ ▸ hlt₁)
  · exact Or.inl (heq₁ ▸ hlt₂)
  · exact Or.inr ⟨heq₁.trans heq₂, lt_trans hid₁ hid₂⟩

theorem not_beats_iff_keyOrder {docs : List index.SearchDoc}
    {a b : discovery.scoredDoc} :
    ¬ discovery.beats docs b a ↔ discovery.keyOrder docs a b := by
  unfold discovery.beats discovery.keyOrder
  constructor
  · intro h
    rcases lt_trichotomy a.score b.score with hlt | heq | hgt
    · exact absurd (Or.inl hlt) h
    · refine Or.inr ⟨heq, ?_⟩
      by_contra hid
      exact h (Or.inr ⟨heq.symm, lt_of_not_le hid⟩)
    · exact Or.inl hgt
  · rintro (hgt | ⟨heq, hid⟩) (hlt₂ | ⟨heq₂, hid₂⟩)
    · exact absurd hlt₂ (lt_asymm hgt)
    · exact absurd heq₂ hgt.ne
    · exact absurd hlt₂ (heq ▸ lt_irrefl _)
    · exact absurd hid (not_le_of_lt hid₂)

theorem innerLoop_spec (docs : List index.SearchDoc)
    (cur : discovery.scoredDoc) (l : List discovery.scoredDoc) :
    ((discovery.innerLoop docs cur l).1 ::
        (discovery.innerLoop docs cur l).2).Perm (cur :: l) ∧
    (∀ z ∈ (discovery.innerLoop docs cur l).2,
        ¬ discovery.beats docs z (discovery.innerLoop docs cur l).1) ∧
    ((discovery.innerLoop docs cur l).1 = cur ∨
        discovery.beats docs (discovery.innerLoop docs cur l).1 cur) := by
  induction l generalizing cur with
  | nil =>
      refine ⟨.refl _, ?_, Or.inl rfl⟩
      intro z hz
      simp [discovery.innerLoop] at hz
  | cons x rest ih =>
      unfold discovery.innerLoop
      by_cases hb : discovery.beats docs x cur
      · rw [if_pos hb]
        dsimp only
        obtain ⟨hperm, hmin, hrel⟩ := ih x
        refine ⟨?_, ?_, ?_⟩
        · exact (List.Perm.swap cur (discovery.innerLoop docs x rest).1
            (discovery.innerLoop docs x rest).2).trans (hperm.cons cur)
        · intro z hz
          rcases List.mem_cons.mp hz with rfl | hz₂
          · rcases hrel with heq | hbmx
            · rw [heq]
              exact beats_asymm hb
            · exact beats_asymm (beats_trans hbmx hb)
          · exact hmin z hz₂
        · rcases hrel with heq | hbmx
          · right
            rw [heq]
            exact hb
          · exact Or.inr (beats_trans hbmx hb)
      · rw [if_neg hb]
        dsimp only
        obtain ⟨hperm, hmin, hrel⟩ := ih cur
        refine ⟨?_, ?_, ?_⟩
        · exact ((List.Perm.swap x (discovery.innerLoop docs cur rest).1
            (discovery.innerLoop docs cur rest).2).trans
              (hperm.cons x)).trans (List.Perm.swap cur x rest)
        · intro z hz
          rcases List.mem_cons.mp hz with rfl | hz₂
          · rcases hrel with heq | hbmc
            · rw [heq]
              exact hb
            · intro hxm
              exact hb (beats_trans hxm hbmc)
          · exact hmin z hz₂
        · exact hrel

theorem innerLoop_snd_length (docs : List index.SearchDoc)
    (cur : discovery.scoredDoc) (l : List discovery.scoredDoc) :
    (discovery.innerLoop docs cur l).2.length = l.length := by
  induction l generalizing cur with
  | nil => rfl
  | cons x rest ih =>
      unfold discovery.innerLoop
      by_cases hb : discovery.beats docs x cur
      · rw [if_pos hb]
        simp [ih x]
      · rw [if_neg hb]
        simp [ih cur]

theorem sortLoop_perm (docs : List index.SearchDoc) :
    ∀ (n : Nat) (l : List discovery.scoredDoc), l.length ≤ n →
      (discovery.sortLoop docs n l).Perm l := by
  intro n
  induction n with
  | zero =>
      intro l hl
      rw [List.eq_nil_of_length_eq_zero (Nat.le_zero.mp hl)]
      exact .refl _
  | succ n ih =>
      intro l hl
      cases l with
      | nil => exact .refl _
      | cons x xs =>
          have hlen := innerLoop_snd_length docs x xs
          have hrec := ih (discovery.innerLoop docs x xs).2
            (by rw [hlen]; exact Nat.le_of_succ_le_succ hl)
          exact (hrec.cons (discovery.innerLoop docs x xs).1).trans
            (innerLoop_spec docs x xs).1

theorem sortLoop_pairwise (docs : List index.SearchDoc) :
    ∀ (n : Nat) (l : List discovery.scoredDoc), l.length ≤ n →
      List.Pairwise (fun a b => ¬ discovery.beats docs b a)
        (discovery.sortLoop docs n l) := by
  intro n
  induction n with
  | zero => intro l hl; exact List.Pairwise.nil
  | succ n ih =>
      intro l hl
      cases l with
      | nil => exact List.Pairwise.nil
      | cons x xs =>
          have hlen := innerLoop_snd_length docs x xs
          have hle : (discovery.innerLoop docs x xs).2.length ≤ n := by
            rw [hlen]; exact Nat.le_of_succ_le_succ hl
          refine List.Pairwise.cons ?_ (ih _ hle)
          intro z hz
          have hzmem : z ∈ (discovery.innerLoop docs x xs).2 :=
            (sortLoop_perm docs n _ hle).mem_iff.mp hz
          exact (innerLoop_spec docs x xs).2.1 z hzmem

theorem collectScored_idx_lt (score : semantic.Document → Except Err ℚ) :
    ∀ (i : Nat) (ds : List semantic.Document)
      (res : List discovery.scoredDoc),
      discovery.collectScored score i ds = .ok res →
      ∀ s ∈ res, i ≤ s.idx ∧ s.idx < i + ds.length := by
  intro i ds
  induction ds generalizing i with
  | nil =>
      intro res h s hs
      simp [discovery.collectScored] at h
      rw [h] at hs
      cases hs
  | cons d rest ih =>
      intro res h s hs
      unfold discovery.collectScored at h
      cases hsc : score d with
      | error e => rw [hsc] at h; exact absurd h (by simp [bind, Except.bind])
      | ok sc =>
          rw [hsc] at h
          cases hrec : discovery.collectScored score (i + 1) rest with
          | error e =>
              rw [hrec] at h
              exact absurd h (by simp [bind, Except.bind])
          | ok tail =>
              rw [hrec] at h
              simp only [bind, Except.bind] at h
              injection h with h₁
              rw [← h₁] at hs
              have htail : ∀ z ∈ tail, i ≤ z.idx ∧ z.idx < i + (rest.length + 1) := by
                intro z hz
                obtain ⟨hz₁, hz₂⟩ := ih (i + 1) tail hrec z hz
                omega
              by_cases hpos : sc > 0
              · rw [if_pos hpos] at hs
                rcases List.mem_cons.mp hs with rfl | hs₂
                · simp
                · simpa using htail s hs₂
              · rw [if_neg hpos] at hs
                simpa using htail s hs

theorem truncateScored_spec (docs : List index.SearchDoc)
    (scored : List discovery.scoredDoc) (limit : Int)
    (hidx : ∀ s ∈ scored, s.idx < docs.length) :
    (∀ s ∈ discovery.truncateScored (discovery.sortScoredDocs scored docs)
        limit, s.idx < docs.length) ∧
    List.Pairwise (discovery.keyOrder docs)
      (discovery.truncateScored (discovery.sortScoredDocs scored docs)
        limit) ∧
    (discovery.truncateScored (discovery.sortScoredDocs scored docs)
        limit).length ≤ limit.toNat := by
  have hsorted := sortLoop_pairwise docs scored.length scored (le_refl _)
  have hperm := sortLoop_perm docs scored.length scored (le_refl _)
  have hkey : List.Pairwise (discovery.keyOrder docs)
      (discovery.sortScoredDocs scored docs) :=
    hsorted.imp (fun h => not_beats_iff_keyOrder.mp h)
  have hsub : (discovery.truncateScored
      (discovery.sortScoredDocs scored docs) limit).Sublist
        (discovery.sortScoredDocs scored docs) := by
    unfold discovery.truncateScored
    split
    · exact List.take_sublist _ _
    · exact List.Sublist.refl _
  refine ⟨?_, hkey.sublist hsub, ?_⟩
  · intro s hs
    exact hidx s (hperm.mem_iff.mp (hsub.subset hs))
  · unfold discovery.truncateScored
    split
    · exact List.length_take_le _ _
    · next hgt => exact Nat.le_of_not_lt hgt

/-- C7, confirmed: for every query, limit and document list, a successful
result of `HybridSearcher.SearchWithScores` or
`BM25OnlySearcher.SearchWithScores` is empty when `limit ≤ 0`, has at most
`limit` entries, and is the image of a scored ranking that is sorted by
score descending with ties broken by document id ascending (every ranked
entry indexing into the document list). -/
theorem c7_searchers_sorted :
    (∀ (h : discovery.HybridSearcher) (query : String) (limit : Int)
        (docs : List index.SearchDoc) (res : List discovery.Result),
        h.SearchWithScores query limit docs = .ok res →
        (limit ≤ 0 → res = []) ∧ res.length ≤ limit.toNat ∧
        ∃ sc : List discovery.scoredDoc,
          (∀ s ∈ sc, s.idx < docs.length) ∧
          List.Pairwise (discovery.keyOrder docs) sc ∧
          res = sc.map (discovery.mkResult docs .hybrid)) ∧
    (∀ (b : discovery.BM25OnlySearcher) (query : String) (limit : Int)
        (docs : List index.SearchDoc) (res : List discovery.Result),
        b.SearchWithScores query limit docs = .ok res →
        (limit ≤ 0 → res = []) ∧ res.length ≤ limit.toNat ∧
        ∃ sc : List discovery.scoredDoc,
          (∀ s ∈ sc, s.idx < docs.length) ∧
          List.Pairwise (discovery.keyOrder docs) sc ∧
          res = sc.map (discovery.mkResult docs .bm25)) := by
  constructor
  · intro h query limit docs res hok
    unfold discovery.HybridSearcher.SearchWithScores at hok
    by_cases hl : limit ≤ 0
    · rw [if_pos hl] at hok
      injection hok with h₁
      refine ⟨fun _ => h₁.symm, ?_, [], by simp, List.Pairwise.nil, ?_⟩
      · rw [← h₁]
        simp
      · rw [← h₁]
        rfl
    · rw [if_neg hl] at hok
      dsimp only at hok
      cases hc : discovery.hybridCollect h query 0
          (semantic.DocumentsFromSearchDocs docs) with
      | error e =>
          rw [hc] at hok
          exact absurd hok (by simp [bind, Except.bind])
      | ok scored =>
          rw [hc] at hok
          simp only [bind, Except.bind] at hok
          injection hok with h₁
          have hidx : ∀ s ∈ scored, s.idx < docs.length := by
            intro s hs
            have h₂ := (collectScored_idx_lt
              (discovery.hybridDocScore h query) 0
              (semantic.DocumentsFromSearchDocs docs) scored hc s hs).2
            simpa [semantic.DocumentsFromSearchDocs] using h₂
          obtain ⟨hidx₂, hkey, hlen⟩ := truncateScored_spec docs scored
            limit hidx
          refine ⟨fun hcontr => absurd hcontr hl, ?_,
            discovery.truncateScored (discovery.sortScoredDocs scored docs)
              limit, hidx₂, hkey, h₁.symm⟩
          rw [← h₁]
          simpa using hlen
  · intro b query limit docs res hok
    unfold discovery.BM25OnlySearcher.SearchWithScores at hok
    by_cases hl : limit ≤ 0
    · rw [if_pos hl] at hok
      injection hok with h₁
      refine ⟨fun _ => h₁.symm, ?_, [], by simp, List.Pairwise.nil, ?_⟩
      · rw [← h₁]
        simp
      · rw [← h₁]
        rfl
    · rw [if_neg hl] at hok
      dsimp only at hok
      cases hc : discovery.bm25Collect b query 0
          (semantic.DocumentsFromSearchDocs docs) with
      | error e =>
          rw [hc] at hok
          exact absurd hok (by simp [bind, Except.bind])
      | ok scored =>
          rw [hc] at hok
          simp only [bind, Except.bind] at hok
          injection hok with h₁
          have hidx : ∀ s ∈ scored, s.idx < docs.length := by
            intro s hs
            have h₂ := (collectScored_idx_lt
              (fun doc => b.strategy query doc.Normalized) 0
              (semantic.DocumentsFromSearchDocs docs) scored hc s hs).2
            simpa [semantic.DocumentsFromSearchDocs] using h₂
          obtain ⟨hidx₂, hkey, hlen⟩ := truncateScored_spec docs scored
            limit hidx
          refine ⟨fun hcontr => absurd hcontr hl, ?_,
            discovery.truncateScored (discovery.sortScoredDocs scored docs)
              limit, hidx₂, hkey, h₁.symm⟩
          rw [← h₁]
          simpa using hlen

/-- C7 witness: the theorem applied to concrete searchers (constant
strategies scoring 1) over a one-document list with limit 1. -/
theorem c7_searchers_sorted_witness :
    (((1 : Int) ≤ 0 →
        ([{ Summary := { ID := "a", Name := "alpha" }, Score := 1,
            ScoreType := .hybrid }] : List discovery.Result) = []) ∧
      ([{ Summary := { ID := "a", Name := "alpha" }, Score := 1,
          ScoreType := .hybrid }] : List discovery.Result).length ≤
        (1 : Int).toNat ∧
      ∃ sc : List discovery.scoredDoc,
        (∀ s ∈ sc, s.idx <
          ([{ ID := "a", DocText := "alpha",
              Summary := { ID := "a", Name := "alpha" } }] :
            List index.SearchDoc).length) ∧
        List.Pairwise (discovery.keyOrder
          [{ ID := "a", DocText := "alpha",
             Summary := { ID := "a", Name := "alpha" } }]) sc ∧
        ([{ Summary := { ID := "a", Name := "alpha" }, Score := 1,
            ScoreType := .hybrid }] : List discovery.Result) =
          sc.map (discovery.mkResult
            [{ ID := "a", DocText := "alpha",
               Summary := { ID := "a", Name := "alpha" } }] .hybrid)) ∧
    (((1 : Int) ≤ 0 →
        ([{ Summary := { ID := "a", Name := "alpha" }, Score := 1,
            ScoreType := .bm25 }] : List discovery.Result) = []) ∧
      ([{ Summary := { ID := "a", Name := "alpha" }, Score := 1,
          ScoreType := .bm25 }] : List discovery.Result).length ≤
        (1 : Int).toNat ∧
      ∃ sc : List discovery.scoredDoc,
        (∀ s ∈ sc, s.idx <
          ([{ ID := "a", DocText := "alpha",
              Summary := { ID := "a", Name := "alpha" } }] :
            List index.SearchDoc).length) ∧
        List.Pairwise (discovery.keyOrder
          [{ ID := "a", DocText := "alpha",
             Summary := { ID := "a", Name := "alpha" } }]) sc ∧
        ([{ Summary := { ID := "a", Name := "alpha" }, Score := 1,
            ScoreType := .bm25 }] : List discovery.Result) =
          sc.map (discovery.mkResult
            [{ ID := "a", DocText := "alpha",
               Summary := { ID := "a", Name := "alpha" } }] .bm25)) := by
  constructor
  · refine c7_searchers_sorted.1
      { bm25Strategy := fun _ _ => .ok 1
        embeddingStrategy := fun _ _ => .ok 1
        alpha := 1 } "q" 1
      [{ ID := "a", DocText := "alpha",
         Summary := { ID := "a", Name := "alpha" } }]
      [{ Summary := { ID := "a", Name := "alpha" }, Score := 1,
         ScoreType := .hybrid }] ?_
    norm_num [discovery.HybridSearcher.SearchWithScores,
      discovery.hybridCollect, discovery.collectScored,
      discovery.hybridDocScore, discovery.sortScoredDocs,
      discovery.sortLoop, discovery.innerLoop, discovery.truncateScored,
      discovery.mkResult, discovery.docAt,
      semantic.DocumentsFromSearchDocs, semantic.DocumentFromSearchDoc,
      bind, Except.bind]
  · refine c7_searchers_sorted.2
      { strategy := fun _ _ => .ok 1 } "q" 1
      [{ ID := "a", DocText := "alpha",
         Summary := { ID := "a", Name := "alpha" } }]
      [{ Summary := { ID := "a", Name := "alpha" }, Score := 1,
         ScoreType := .bm25 }] ?_
    norm_num [discovery.BM25OnlySearcher.SearchWithScores,
      discovery.bm25Collect, discovery.collectScored,
      discovery.sortScoredDocs, discovery.sortLoop,
      discovery.innerLoop, discovery.truncateScored, discovery.mkResult,
      discovery.docAt,
      semantic.DocumentsFromSearchDocs, semantic.DocumentFromSearchDoc,
      bind, Except.bind]

theorem sep_peel (c : Char) :
    ∀ (a b r₁ r₂ : List Char), c ∉ a → c ∉ b →
      a ++ c :: r₁ = b ++ c :: r₂ → a = b ∧ r₁ = r₂ := by
  intro a
  induction a with
  | nil =>
      intro b r₁ r₂ _ hcb h
      cases b with
      | nil =>
          simp at h
          exact ⟨rfl, h⟩
      | cons y b₂ =>
          simp at h
          exact absurd (h.1 ▸ List.mem_cons_self y b₂) (h.1 ▸ hcb)
  | cons x a₂ ih =>
      intro b r₁ r₂ hca hcb h
      cases b with
      | nil =>
          simp at h
          exact absurd (h.1 ▸ List.mem_cons_self x a₂) (h.1 ▸ hca)
      | cons y b₂ =>
          simp at h
          obtain ⟨hxy, hrest⟩ := h
          have hca₂ : c ∉ a₂ := fun hm => hca (List.mem_cons_of_mem x hm)
          have hcb₂ : c ∉ b₂ := fun hm => hcb (List.mem_cons_of_mem y hm)
          obtain ⟨hab, hr⟩ := ih b₂ r₁ r₂ hca₂ hcb₂ hrest
          exact ⟨by rw [hxy, hab], hr⟩

theorem encFields_ne_nil (f : List Char) (fs : List (List Char)) :
    search.encFields (f :: fs) ≠ [] := by
  unfold search.encFields
  cases f <;> simp

theorem encFields_inj :
    ∀ (fs₁ fs₂ : List (List Char)),
      (∀ f ∈ fs₁, search.sep ∉ f) → (∀ f ∈ fs₂, search.sep ∉ f) →
      search.encFields fs₁ = search.encFields fs₂ → fs₁ = fs₂ := by
  intro fs₁
  induction fs₁ with
  | nil =>
      intro fs₂ _ _ h
      cases fs₂ with
      | nil => rfl
      | cons g gs => exact absurd h.symm (encFields_ne_nil g gs)
  | cons f fs ih =>
      intro fs₂ h₁ h₂ h
      cases fs₂ with
      | nil => exact absurd h (encFields_ne_nil f fs)
      | cons g gs =>
          unfold search.encFields at h
          obtain ⟨hfg, hrest⟩ := sep_peel search.sep f g _ _
            (h₁ f (List.mem_cons_self f fs)) (h₂ g (List.mem_cons_self g gs)) h
          have htail := ih gs (fun x hx => h₁ x (List.mem_cons_of_mem f hx))
            (fun x hx => h₂ x (List.mem_cons_of_mem g hx)) hrest
          rw [hfg, htail]

theorem joinSep_cons_cons_ne_nil (c : Char) (a b : List Char)
    (r : List (List Char)) : search.joinSep c (a :: b :: r) ≠ [] := by
  unfold search.joinSep
  cases a <;> simp

theorem joinSep_inj (c : Char) :
    ∀ (ls₁ ls₂ : List (List Char)),
      (∀ x ∈ ls₁, x ≠ [] ∧ c ∉ x) → (∀ x ∈ ls₂, x ≠ [] ∧ c ∉ x) →
      search.joinSep c ls₁ = search.joinSep c ls₂ → ls₁ = ls₂ := by
  intro ls₁
  induction ls₁ with
  | nil =>
      intro ls₂ _ h₂ h
      cases ls₂ with
      | nil => rfl
      | cons b r₂ =>
          cases r₂ with
          | nil =>
              exact absurd h.symm (by
                simpa [search.joinSep] using (h₂ b (by simp)).1)
          | cons b₂ r₃ =>
              exact absurd h.symm (joinSep_cons_cons_ne_nil c b b₂ r₃)
  | cons a r₁ ih =>
      intro ls₂ h₁ h₂ h
      cases ls₂ with
      | nil =>
          cases r₁ with
          | nil =>
              exact absurd h (by
                simpa [search.joinSep] using (h₁ a (by simp)).1)
          | cons a₂ r₃ =>
              exact absurd h (joinSep_cons_cons_ne_nil c a a₂ r₃)
      | cons b r₂ =>
          cases r₁ with
          | nil =>
              cases r₂ with
              | nil =>
                  unfold search.joinSep at h
                  rw [h]
              | cons b₂ r₃ =>
                  exfalso
                  have hcmem : c ∈ search.joinSep c (b :: b₂ :: r₃) := by
                    unfold search.joinSep
                    exact List.mem_append.mpr (Or.inr (List.mem_cons_self _ _))
                  rw [← h] at hcmem
                  unfold search.joinSep at hcmem
                  exact (h₁ a (by simp)).2 hcmem
          | cons a₂ r₃ =>
              cases r₂ with
              | nil =>
                  exfalso
                  have hcmem : c ∈ search.joinSep c (a :: a₂ :: r₃) := by
                    unfold search.joinSep
                    exact List.mem_append.mpr (Or.inr (List.mem_cons_self _ _))
                  rw [h] at hcmem
                  unfold search.joinSep at hcmem
                  exact (h₂ b (by simp)).2 hcmem
              | cons b₂ r₄ =>
                  unfold search.joinSep at h
                  obtain ⟨hab, hrest⟩ := sep_peel c a b _ _
                    (h₁ a (by simp)).2 (h₂ b (by simp)).2 h
                  have htail := ih (b₂ :: r₄)
                    (fun x hx => h₁ x (List.mem_cons_of_mem a hx))
                    (fun x hx => h₂ x (List.mem_cons_of_mem b hx)) hrest
                  rw [hab, htail]

theorem sep_ne_sep1 : search.sep ≠ search.sep1 := by decide

theorem sep_not_mem_joinSep :
    ∀ ls : List (List Char), (∀ x ∈ ls, search.sep ∉ x) →
      search.sep ∉ search.joinSep search.sep1 ls := by
  intro ls
  induction ls with
  | nil => intro _ h; simp [search.joinSep] at h
  | cons a r ih =>
      intro hfree hmem
      cases r with
      | nil =>
          exact hfree a (by simp) (by simpa [search.joinSep] using hmem)
      | cons b r₂ =>
          unfold search.joinSep at hmem
          rcases List.mem_append.mp hmem with hin | hin
          · exact hfree a (by simp) hin
          · rcases List.mem_cons.mp hin with heq | hin₂
            · exact sep_ne_sep1 heq
            · exact ih (fun x hx => hfree x (List.mem_cons_of_mem a hx)) hin₂

theorem mem_sortStrings {l : List String} {x : String} :
    x ∈ sortStrings l ↔ x ∈ l :=
  (List.perm_insertionSort _ l).mem_iff

theorem docFields_sep_free {d : index.SearchDoc} (hc : search.cleanDoc d) :
    ∀ f ∈ search.docFields d, search.sep ∉ f := by
  obtain ⟨h₁, h₂, h₃, h₄, h₅, h₆, h₇, h₈, h₉, hin, hout, htags⟩ := hc
  intro f hf
  unfold search.docFields at hf
  simp only [List.mem_cons, List.not_mem_nil, or_false] at hf
  rcases hf with rfl | rfl | rfl | rfl | rfl | rfl | rfl | rfl | rfl | rfl
    | rfl | rfl
  · exact h₁
  · exact h₂
  · exact h₃
  · exact h₄
  · exact h₅
  · exact h₆
  · exact h₇
  · exact h₈
  · exact sep_not_mem_joinSep _ (by
      intro x hx
      obtain ⟨m, hm, rfl⟩ := List.mem_map.mp hx
      exact (hin m hm).2.1)
  · exact sep_not_mem_joinSep _ (by
      intro x hx
      obtain ⟨m, hm, rfl⟩ := List.mem_map.mp hx
      exact (hout m hm).2.1)
  · exact h₉
  · exact sep_not_mem_joinSep _ (by
      intro x hx
      obtain ⟨m, hm, rfl⟩ := List.mem_map.mp hx
      exact (htags m (mem_sortStrings.mp hm)).2.1)

theorem encFields_append (fs₁ fs₂ : List (List Char)) :
    search.encFields (fs₁ ++ fs₂) =
      search.encFields fs₁ ++ search.encFields fs₂ := by
  induction fs₁ with
  | nil => simp [search.encFields]
  | cons f fs ih => simp [search.encFields, ih]

theorem fingerprintBytes_eq_encFields (docs : List index.SearchDoc) :
    search.fingerprintBytes docs =
      search.encFields ((docs.map search.docFields).flatten) := by
  induction docs with
  | nil => rfl
  | cons d rest ih =>
      unfold search.fingerprintBytes at ih ⊢
      simp only [List.map_cons, List.flatten_cons, encFields_append]
      rw [ih]

theorem flatten_chunks_inj {α : Type} :
    ∀ (l₁ l₂ : List (List α)), (∀ x ∈ l₁, x.length = 12) →
      (∀ x ∈ l₂, x.length = 12) → l₁.flatten = l₂.flatten → l₁ = l₂ := by
  intro l₁
  induction l₁ with
  | nil =>
      intro l₂ _ h₂ h
      cases l₂ with
      | nil => rfl
      | cons y ys =>
          exfalso
          have hlen := congrArg List.length h
          simp [h₂ y (by simp)] at hlen
          omega
  | cons x xs ih =>
      intro l₂ h₁ h₂ h
      cases l₂ with
      | nil =>
          exfalso
          have hlen := congrArg List.length h
          simp [h₁ x (by simp)] at hlen
      | cons y ys =>
          simp only [List.flatten_cons] at h
          obtain ⟨hxy, hrest⟩ := List.append_inj h
            (by rw [h₁ x (by simp), h₂ y (by simp)])
          have htail := ih ys (fun z hz => h₁ z (List.mem_cons_of_mem x hz))
            (fun z hz => h₂ z (List.mem_cons_of_mem y hz)) hrest
          rw [hxy, htail]

theorem string_data_inj {a b : String} (h : a.data = b.data) : a = b := by
  cases a
  cases b
  exact congrArg String.mk h

theorem string_data_ne_nil {s : String} (h : s ≠ "") : s.data ≠ [] := by
  intro hd
  apply h
  cases s
  exact congrArg String.mk hd

theorem sortStrings_perm_congr {l₁ l₂ : List String} (h : l₁.Perm l₂) :
    sortStrings l₁ = sortStrings l₂ := by
  refine List.eq_of_perm_of_sorted ?_ (List.sorted_insertionSort _ _)
    (List.sorted_insertionSort _ _)
  exact (List.perm_insertionSort _ l₁).trans
    (h.trans (List.perm_insertionSort _ l₂).symm)

theorem stringList_join_inj {l₁ l₂ : List String}
    (h₁ : ∀ m ∈ l₁, m ≠ "" ∧ search.charFree search.sep m ∧
      search.charFree search.sep1 m)
    (h₂ : ∀ m ∈ l₂, m ≠ "" ∧ search.charFree search.sep m ∧
      search.charFree search.sep1 m)
    (h : search.joinSep search.sep1 (l₁.map String.data) =
      search.joinSep search.sep1 (l₂.map String.data)) : l₁ = l₂ := by
  have hmaps := joinSep_inj search.sep1 (l₁.map String.data)
    (l₂.map String.data)
    (by
      intro x hx
      obtain ⟨m, hm, rfl⟩ := List.mem_map.mp hx
      exact ⟨string_data_ne_nil (h₁ m hm).1, (h₁ m hm).2.2⟩)
    (by
      intro x hx
      obtain ⟨m, hm, rfl⟩ := List.mem_map.mp hx
      exact ⟨string_data_ne_nil (h₂ m hm).1, (h₂ m hm).2.2⟩) h
  exact List.map_injective_iff.mpr (fun a b hab => string_data_inj hab) hmaps

theorem fingerprintKey_of_docFields {a b : index.SearchDoc}
    (hca : search.cleanDoc a) (hcb : search.cleanDoc b)
    (h : search.docFields a = search.docFields b) :
    search.fingerprintKey a = search.fingerprintKey b := by
  unfold search.docFields at h
  simp only [List.cons.injEq, and_true] at h
  obtain ⟨hid, hdt, hsid, hname, hns, hsd, hsum, hcat, hin, hout, hsec,
    htags⟩ := h
  obtain ⟨_, _, _, _, _, _, _, _, _, hina, houta, htagsa⟩ := hca
  obtain ⟨_, _, _, _, _, _, _, _, _, hinb, houtb, htagsb⟩ := hcb
  unfold search.fingerprintKey
  rw [string_data_inj hid, string_data_inj hdt, string_data_inj hsid,
    string_data_inj hname, string_data_inj hns, string_data_inj hsd,
    string_data_inj hsum, string_data_inj hcat, string_data_inj hsec]
  rw [stringList_join_inj hina hinb hin, stringList_join_inj houta houtb hout]
  rw [stringList_join_inj
    (fun m hm => htagsa m (mem_sortStrings.mp hm))
    (fun m hm => htagsb m (mem_sortStrings.mp hm)) htags]

theorem flatten_docFields_sep_free (d : List index.SearchDoc)
    (hc : ∀ x ∈ d, search.cleanDoc x) :
    ∀ f ∈ (d.map search.docFields).flatten, search.sep ∉ f := by
  intro f hf
  obtain ⟨fs, hfs, hmem⟩ := List.mem_flatten.mp hf
  obtain ⟨d₀, hd₀, rfl⟩ := List.mem_map.mp hfs
  exact docFields_sep_free (hc d₀ hd₀) f hmem

theorem map_fingerprintKey_of_map_docFields :
    ∀ (d₁ d₂ : List index.SearchDoc), (∀ d ∈ d₁, search.cleanDoc d) →
      (∀ d ∈ d₂, search.cleanDoc d) →
      d₁.map search.docFields = d₂.map search.docFields →
      d₁.map search.fingerprintKey = d₂.map search.fingerprintKey := by
  intro d₁
  induction d₁ with
  | nil =>
      intro d₂ _ _ h
      have hd : d₂ = [] := by
        have := congrArg List.length h
        simpa using this.symm
      subst hd
      rfl
  | cons a l ih =>
      intro d₂ hc₁ hc₂ h
      cases d₂ with
      | nil => simp at h
      | cons b m =>
          simp only [List.map_cons, List.cons.injEq] at h
          simp only [List.map_cons, List.cons.injEq]
          exact ⟨fingerprintKey_of_docFields (hc₁ a (by simp))
              (hc₂ b (by simp)) h.1,
            ih m (fun x hx => hc₁ x (List.mem_cons_of_mem a hx))
              (fun x hx => hc₂ x (List.mem_cons_of_mem b hx)) h.2⟩

/-- C8, the claim as stated, refuted: the byte stream fed to SHA-256 does
not distinguish every pair of doc slices that differ in a document's id —
the `{0}` separator also occurs as ordinary data.  These two one-document
slices have different ids (and doc texts) yet identical encodings. -/
theorem c8_fingerprint_counterexample :
    search.fingerprintBytes
        [{ ID := "a" ++ String.singleton (Char.ofNat 0) ++ "b" }] =
      search.fingerprintBytes
        [{ ID := "a", DocText := "b" ++ String.singleton (Char.ofNat 0) }] ∧
    ({ ID := "a" ++ String.singleton (Char.ofNat 0) ++ "b" } :
        index.SearchDoc).ID ≠
      ({ ID := "a", DocText := "b" ++ String.singleton (Char.ofNat 0) } :
        index.SearchDoc).ID := by
  exact ⟨by decide, by decide⟩

/-- C8 as amended: the fingerprint byte stream is deterministic, invariant
under permuting each document's tags, and — on documents whose string
payloads avoid the separator bytes (no field contains `{0}`; modes and
tags nonempty and free of `{0}` and `\x01`) — it distinguishes any two doc
slices that differ in a document's id, doc text, any summary field, the
tag set, or the order of documents. -/
theorem c8_fingerprint_amended :
    (∀ d₁ d₂ : List index.SearchDoc, d₁ = d₂ →
        search.fingerprintBytes d₁ = search.fingerprintBytes d₂) ∧
    (∀ d₁ d₂ : List index.SearchDoc, List.Forall₂ search.sameButTags d₁ d₂ →
        search.fingerprintBytes d₁ = search.fingerprintBytes d₂) ∧
    (∀ d₁ d₂ : List index.SearchDoc,
        (∀ d ∈ d₁, search.cleanDoc d) → (∀ d ∈ d₂, search.cleanDoc d) →
        search.fingerprintBytes d₁ = search.fingerprintBytes d₂ →
        d₁.map search.fingerprintKey = d₂.map search.fingerprintKey) := by
  refine ⟨fun d₁ d₂ h => congrArg _ h, ?_, ?_⟩
  · intro d₁ d₂ hf
    induction hf with
    | nil => rfl
    | @cons a b l₁ l₂ hrel hrest ih =>
        obtain ⟨hperm, hb⟩ := hrel
        have hfields : search.docFields b = search.docFields a := by
          rw [hb]
          unfold search.docFields
          dsimp only
          rw [← sortStrings_perm_congr hperm]
        simp only [search.fingerprintBytes, List.map_cons, List.flatten_cons]
        simp only [search.fingerprintBytes] at ih
        rw [hfields, ih]
  · intro d₁ d₂ hc₁ hc₂ h
    rw [fingerprintBytes_eq_encFields, fingerprintBytes_eq_encFields] at h
    have hflat := encFields_inj _ _ (flatten_docFields_sep_free d₁ hc₁)
      (flatten_docFields_sep_free d₂ hc₂) h
    have hchunks := flatten_chunks_inj _ _
      (by
        intro x hx
        obtain ⟨d₀, _, rfl⟩ := List.mem_map.mp hx
        rfl)
      (by
        intro x hx
        obtain ⟨d₀, _, rfl⟩ := List.mem_map.mp hx
        rfl) hflat
    exact map_fingerprintKey_of_map_docFields d₁ d₂ hc₁ hc₂ hchunks

/-- C8 witness: the three amended components applied at concrete doc
slices — determinism on a concrete slice, tag-permutation invariance
between `["b","a"]` and `["a","b"]`, and the distinguishing direction on a
clean one-document slice. -/
theorem c8_fingerprint_amended_witness :
    search.fingerprintBytes [{ ID := "x", DocText := "y" }] =
      search.fingerprintBytes [{ ID := "x", DocText := "y" }] ∧
    search.fingerprintBytes
        [{ ID := "x", Summary := { ID := "x", Tags := ["b", "a"] } }] =
      search.fingerprintBytes
        [{ ID := "x", Summary := { ID := "x", Tags := ["a", "b"] } }] ∧
    ([{ ID := "x", DocText := "y",
        Summary := { ID := "x", Tags := ["t"] } }] :
      List index.SearchDoc).map search.fingerprintKey =
      ([{ ID := "x", DocText := "y",
          Summary := { ID := "x", Tags := ["t"] } }] :
        List index.SearchDoc).map search.fingerprintKey := by
  refine ⟨?_, ?_, ?_⟩
  · exact c8_fingerprint_amended.1 [{ ID := "x", DocText := "y" }]
      [{ ID := "x", DocText := "y" }] rfl
  · exact c8_fingerprint_amended.2.1
      [{ ID := "x", Summary := { ID := "x", Tags := ["b", "a"] } }]
      [{ ID := "x", Summary := { ID := "x", Tags := ["a", "b"] } }]
      (List.Forall₂.cons ⟨by decide, rfl⟩ List.Forall₂.nil)
  · exact c8_fingerprint_amended.2.2
      [{ ID := "x", DocText := "y",
         Summary := { ID := "x", Tags := ["t"] } }]
      [{ ID := "x", DocText := "y",
         Summary := { ID := "x", Tags := ["t"] } }]
      (by intro d hd; simp at hd; rw [hd]; decide)
      (by intro d hd; simp at hd; rw [hd]; decide) rfl
